import Mathlib

/-!
# Startup sequencing of katib-controller

A verification development for two files of the repository:

* `cmd/katib-controller/v1beta1/main.go`: `main` and `setupControllers`;
* `pkg/webhook/v1beta1/webhook.go`: `AddToManager`, the "cert" readiness check and the
  runnable that starts the webhook server.

The Go code is embedded as state passing (`AddToManager`) and as a step function on a
state with one program counter per goroutine (`main`, and the `waiter` it starts, both
running `setupControllers`). Calls into packages that are not part of the two files
(controller-runtime's manager, the certificate generator, the configuration loader) are
not executed: the error such a call returns is an input of the model, so every theorem
below holds for every outcome of those calls. Logging and the `viper.Set` bookkeeping
have no influence on control flow and are left out.

The step function comes at two grains. `step` takes a call, the test of its error and
the `os.Exit(1)` behind it as one transition. `Proc.step` takes the exit as a statement
of its own, so that the other goroutine can run between a failing call and the exit.

main.go calls `webhookv1beta1.AddToManager(mgr, hookServer)` with two arguments, while
the function of that name in webhook.go takes three: the two files do not fit together,
so the call stays an external call in the model of main.go and webhook.go is studied on
its own.
-/

namespace Katib

/-! ## Errors, channels, contexts -/

/-- Go `error` values, as far as the two files build or inspect them. -/
inductive Error
  /-- `fmt.Errorf(text)`, or the error of an external call, identified by its text. -/
  | errorf (text : String)
  /-- `fmt.Errorf(text + "%v", cause)`. -/
  | wrapped (text : String) (cause : Error)
  /-- the probe registry refusing a name it already holds. -/
  | collision (name : String)
  deriving DecidableEq, Repr

/-- The error of an external call: `none` is Go's `nil`. -/
def extErr (ret : Option String) : Option Error :=
  ret.map Error.errorf

/-- A Go channel `chan struct{}` on which nobody ever sends (neither file contains a
send): the only thing that can happen to it is `close`, so its state is whether it has
been closed. -/
structure Chan where
  closed : Bool
  deriving DecidableEq, Repr

/-- `make(chan struct{})`. -/
def make : Chan := ⟨false⟩

/-- `close(c)`. -/
def close (_c : Chan) : Chan := ⟨true⟩

/-- Whether a receive `<-c` can proceed: with no sender, exactly when `c` is closed. A
receive from a closed channel leaves it closed. -/
def recvReady (c : Chan) : Bool := c.closed

/-- A `context.Context`: `Done()` is closed exactly when `Err()` is not nil. -/
structure Context where
  id : Nat
  err : Option Error
  deriving DecidableEq, Repr

/-- `<-ctx.Done()` can proceed. -/
def Context.done (ctx : Context) : Bool := ctx.err.isSome

/-- What a `select` statement, or a function made of one, comes to in a given state. -/
inductive Sel (α : Type)
  /-- no case is ready and there is no `default`: the goroutine waits. -/
  | blocked
  /-- a case ran and produced `a`. -/
  | done (a : α)
  deriving DecidableEq, Repr

/-! ## The manager and the webhook server -/

/-- The runnable `AddToManager` hands to `mgr.Add` (webhook.go, lines 73-80); its
behaviour is `runnable` below. -/
inductive Runnable
  | gatedWebhookServer
  deriving DecidableEq, Repr

/-- What the code under study does to a `manager.Manager`. -/
structure Manager where
  /-- names of the readiness checks, in registration order. -/
  readyz : List String
  /-- names of the liveness checks, in registration order. -/
  healthz : List String
  /-- the certificate generator has been added by `cert.AddToManager`. -/
  certGenerator : Bool
  /-- runnables added with `mgr.Add`. -/
  runnables : List Runnable
  deriving DecidableEq, Repr

/-- The manager as `manager.New` returns it. -/
def Manager.new : Manager := ⟨[], [], false, []⟩

/-- Modelled from the spec: `mgr.AddReadyzCheck(name, _)` of controller-runtime, which is
not part of the repository. The spec's probe registry fails on a name that is already
in the set and then leaves the registry as it was; `other` is an error from any other
cause, which also leaves the registry as it was. -/
def Manager.AddReadyzCheck (mgr : Manager) (other : Option Error) (name : String) :
    Manager × Option Error :=
  match other with
  | some e => (mgr, some e)
  | none =>
    if name ∈ mgr.readyz then (mgr, some (.collision name))
    else ({ mgr with readyz := mgr.readyz ++ [name] }, none)

/-- Modelled from the spec: `mgr.AddHealthzCheck(name, _)`, the liveness half of the same
registry. -/
def Manager.AddHealthzCheck (mgr : Manager) (other : Option Error) (name : String) :
    Manager × Option Error :=
  match other with
  | some e => (mgr, some e)
  | none =>
    if name ∈ mgr.healthz then (mgr, some (.collision name))
    else ({ mgr with healthz := mgr.healthz ++ [name] }, none)

/-- Modelled from the spec: `cert.AddToManager(mgr, cfg, certsReady)` of the certificate
generator package, which is not in the two files. It returns an error or none; when it
returns none the provisioner has been handed to the manager together with the channel it
will signal. -/
def certAddToManager (mgr : Manager) (ret : Option Error) : Manager × Option Error :=
  match ret with
  | some e => (mgr, some e)
  | none => ({ mgr with certGenerator := true }, none)

/-- Modelled from the spec: `mgr.Add(r)` of controller-runtime: an error, or the runnable
is kept by the manager. -/
def Manager.Add (mgr : Manager) (ret : Option Error) (r : Runnable) : Manager × Option Error :=
  match ret with
  | some e => (mgr, some e)
  | none => ({ mgr with runnables := mgr.runnables ++ [r] }, none)

/-- What the code under study does to a `webhook.Server`. -/
structure HookServer where
  /-- paths given to `Register`, in order. -/
  handlers : List String
  /-- the contexts `Start` was called with, in order. -/
  started : List Context
  deriving DecidableEq, Repr

/-- `hookServer.Register(path, _)`. -/
def HookServer.Register (h : HookServer) (path : String) : HookServer :=
  { h with handlers := h.handlers ++ [path] }

/-! ## webhook.go -/

/-- `configv1beta1.CertGeneratorConfig`, of which only `Enable` is read. -/
structure CertGeneratorConfig where
  Enable : Bool
  deriving DecidableEq, Repr

/-- The readiness check registered under "cert" (webhook.go lines 39-46, main.go lines
143-150): a `select` with a receive from `certsReady` and a `default`. The second
component is the channel after the evaluation. -/
def certCheck (certsReady : Chan) : Sel (Option Error) × Chan :=
  if recvReady certsReady then (.done none, certsReady)
  else (.done (some (.errorf "cert not ready")), certsReady)

/-- What one run of the runnable did: the error it returned, and the contexts it called
`hookServer.Start` with. -/
structure RunnableResult where
  err : Option Error
  startCalls : List Context
  deriving DecidableEq, Repr

/-- The runnable of webhook.go lines 73-80:
`select { case <-ctx.Done(): return ctx.Err(); case <-certsReady: return hookServer.Start(ctx) }`.
`hookServerStart` is what `hookServer.Start` returns for a context; when both cases are
ready Go picks either one, which is `pickDone`. -/
def runnable (hookServerStart : Context → Option Error) (pickDone : Bool)
    (ctx : Context) (certsReady : Chan) : Sel RunnableResult :=
  match ctx.done, recvReady certsReady with
  | false, false => .blocked
  | true, false => .done ⟨ctx.err, []⟩
  | false, true => .done ⟨hookServerStart ctx, [ctx]⟩
  | true, true =>
    if pickDone then .done ⟨ctx.err, []⟩ else .done ⟨hookServerStart ctx, [ctx]⟩

/-- The objects `AddToManager` works on: its two arguments and the channel it makes
(`none` before the call). -/
structure World where
  mgr : Manager
  hookServer : HookServer
  certsReady : Option Chan
  deriving DecidableEq, Repr

/-- The errors the external calls of `AddToManager` return (`none` is `nil`). -/
structure Env where
  /-- `mgr.AddReadyzCheck(name, _)` failing for a reason other than a name collision. -/
  addReadyzCheck : String → Option String
  /-- `cert.AddToManager`. -/
  certAddToManager : Option String
  /-- `mgr.Add`. -/
  add : Option String

/-- `mgr.AddReadyzCheck(name, _)` on the world. -/
def World.addReadyzCheck (env : Env) (name : String) (w : World) : World × Option Error :=
  let r := w.mgr.AddReadyzCheck (extErr (env.addReadyzCheck name)) name
  ({ w with mgr := r.1 }, r.2)

/-- `hookServer.Register(path, _)` on the world. -/
def World.register (path : String) (w : World) : World :=
  { w with hookServer := w.hookServer.Register path }

/-- Lines 37-57 of webhook.go: make the channel; with `Enable`, register the "cert"
check and add the certificate generator, returning the first error; without, close the
channel. -/
def AddToManager.certs (env : Env) (certsCfg : CertGeneratorConfig) (w0 : World) :
    World × Option Error :=
  let w : World := { w0 with certsReady := some make }
  if certsCfg.Enable then
    match w.addReadyzCheck env "cert" with
    | (w, some err) => (w, some err)
    | (w, none) =>
      let r := certAddToManager w.mgr (extErr env.certAddToManager)
      ({ w with mgr := r.1 }, r.2)
  else
    ({ w with certsReady := some (close make) }, none)

/-- `AddToManager(mgr, hookServer, certsCfg)` of webhook.go: the world it leaves and the
error it returns. -/
def AddToManager (env : Env) (certsCfg : CertGeneratorConfig) (w0 : World) :
    World × Option Error :=
  match AddToManager.certs env certsCfg w0 with
  | (w, some err) => (w, some err)
  | (w, none) =>
    let w := w.register "/validate-experiment"
    let w := w.register "/mutate-experiment"
    let w := w.register "/mutate-pod"
    match w.addReadyzCheck env "webhook" with
    | (w, some err) => (w, some err)
    | (w, none) =>
      match w.mgr.Add (extErr env.add) .gatedWebhookServer with
      | (_, some err) =>
        (w, some (.wrapped "add webhook server to the manager failed: " err))
      | (mgr, none) => ({ w with mgr := mgr }, none)

/-- What can happen while the runnable added by `AddToManager` is alive. -/
inductive RunnableAction
  /-- the certificate provisioner signals `certsReady`. -/
  | signal
  /-- the context is cancelled, `ctx.Err()` becoming `e`. -/
  | cancel (e : Error)
  /-- the runnable's `select` is evaluated; `pickDone` as in `runnable`. -/
  | wake (pickDone : Bool)
  deriving DecidableEq, Repr

/-- The runnable together with what it waits on. -/
structure RunnableState where
  certsReady : Chan
  ctx : Context
  /-- what the runnable returned, once it has. -/
  result : Option RunnableResult
  hookServer : HookServer
  deriving DecidableEq, Repr

/-- One thing happening to the runnable: a signal closes the channel, the first
cancellation sets the context's error, and a waiting runnable whose `select` has a
ready case runs it (calling `hookServer.Start` in the second case). -/
def RunnableState.step (hookServerStart : Context → Option Error) (s : RunnableState) :
    RunnableAction → RunnableState
  | .signal => { s with certsReady := close s.certsReady }
  | .cancel e =>
    match s.ctx.err with
    | none => { s with ctx := { s.ctx with err := some e } }
    | some _ => s
  | .wake pickDone =>
    match s.result with
    | some _ => s
    | none =>
      match runnable hookServerStart pickDone s.ctx s.certsReady with
      | .blocked => s
      | .done r =>
        { s with result := some r,
                 hookServer := { s.hookServer with
                   started := s.hookServer.started ++ r.startCalls } }

/-- A life of the runnable: the actions `as`, one after the other. -/
def RunnableState.run (hookServerStart : Context → Option Error) :
    RunnableState → List RunnableAction → RunnableState
  | s, [] => s
  | s, a :: as => RunnableState.run hookServerStart (s.step hookServerStart a) as

/-- What can happen to the gate behind the "cert" readiness check. -/
inductive GateOp
  /-- the readiness check is evaluated. -/
  | poll
  /-- the certificate provisioner signals. -/
  | signal
  deriving DecidableEq, Repr

/-- The gate under a sequence of evaluations and signals: the channel at the end and
what each evaluation returned, in order. -/
def gateRun : Chan → List GateOp → Chan × List (Sel (Option Error))
  | c, [] => (c, [])
  | c, .poll :: ops =>
    let r := certCheck c
    let rest := gateRun r.2 ops
    (rest.1, r.1 :: rest.2)
  | c, .signal :: ops => gateRun (close c) ops

/-! ## main.go -/

/-- The two goroutines of main.go: the main flow and the background waiter of lines
161-166. -/
inductive Tid
  | main
  | waiter
  deriving DecidableEq, Repr

/-- The calls of `main` and `setupControllers` into other packages. -/
inductive Call
  | GetInitConfigData
  | TrialResourcesToGVKs
  | GetConfig
  | ManagerNew
  | NewServer
  | AddReadyzCheck (name : String)
  | CertAddToManager
  | AddHealthzCheck (name : String)
  | ControllerAddToManager
  | WebhookAddToManager
  | MgrStart
  deriving DecidableEq, Repr

/-- What an execution does, in the order it does it. -/
inductive Event
  /-- goroutine `t` called `c`, which returned `err`. -/
  | call (t : Tid) (c : Call) (err : Option Error)
  /-- `certsReady := make(chan struct{})`. -/
  | makeChan
  /-- the `go func() { ... }()` of line 161: the waiter exists from here on. -/
  | go
  /-- the certificate provisioner signals `certsReady`. -/
  | signal
  /-- the waiter's `<-certsReady` of line 163 has received. -/
  | recv
  /-- goroutine `t` calls `setupControllers`. -/
  | enter (t : Tid)
  /-- `setupControllers` returns to goroutine `t`. -/
  | leave (t : Tid)
  /-- `mgr.Start(ctx)` is called; it returns with a later `call .main .MgrStart _`. -/
  | start
  /-- the process ends with this status: `os.Exit(code)`, or `main` returning (0). -/
  | exit (code : Nat)
  deriving DecidableEq, Repr

/-- Program points of main.go: the statement a goroutine executes next. -/
inductive Pc
  | getInitConfigData     -- line 71
  | trialResourcesToGVKs  -- line 82
  | getConfig             -- line 107
  | managerNew            -- line 114
  | newServer             -- line 131
  | readyzWebhook         -- line 136
  | makeChan              -- line 142
  | readyzCert            -- line 143
  | certAddToManager      -- line 156
  | goWaiter              -- line 161
  | recv                  -- line 163 (waiter)
  | callSetup             -- line 165 (waiter) and line 168 (main)
  | controller            -- line 191
  | webhook               -- line 197
  | leave                 -- line 201
  | healthz               -- line 172
  | startCall             -- line 180, the call
  | startReturn           -- line 180, the return and its test
  | ret                   -- line 184
  | done                  -- the waiter's function has returned
  deriving DecidableEq, Repr

/-- The state of the process. -/
structure State where
  /-- the main flow's next statement. -/
  main : Pc
  /-- the waiter's next statement, once it has been spawned. -/
  waiter : Option Pc
  /-- the channel of line 142, once made. -/
  certsReady : Option Chan
  /-- the manager: the probes registered by main.go itself and whether the certificate
  generator was added. What `controller.AddToManager` and `webhookv1beta1.AddToManager`
  do to it is not followed. -/
  mgr : Manager
  /-- the exit status, once the process has ended. -/
  exit : Option Nat
  /-- everything that happened so far, oldest first. -/
  trace : List Event
  deriving DecidableEq, Repr

/-- The state in which `main` is entered. -/
def State.init : State :=
  ⟨.getInitConfigData, none, none, Manager.new, none, []⟩

/-- Move goroutine `t` to `pc`. -/
def setPc (t : Tid) (pc : Pc) (s : State) : State :=
  match t with
  | .main => { s with main := pc }
  | .waiter => { s with waiter := some pc }

/-- Append to the trace. -/
def emit (es : List Event) (s : State) : State :=
  { s with trace := s.trace ++ es }

/-- `os.Exit(code)`, and `main` returning with `code = 0`. -/
def osExit (code : Nat) (s : State) : State :=
  { s with exit := some code, trace := s.trace ++ [.exit code] }

/-- The shape every fallible call of main.go has:
`if err := c(...); err != nil { log.Error(err, ...); os.Exit(1) }`, at the coarse grain:
the call, the test and the exit are one transition, and goroutine `t` goes on at `next`
when `err` is nil. While `main` is the only goroutine nothing can run in between; once
the waiter exists the other goroutine can, and `Proc.step` below takes the exit as a
statement of its own. -/
def guarded (t : Tid) (c : Call) (err : Option Error) (next : Pc) (s : State) : State :=
  match err with
  | some e => osExit 1 (emit [.call t c (some e)] s)
  | none => setPc t next (emit [.call t c none] s)

/-- The body of `setupControllers` (lines 188-201), run by goroutine `t`, which goes on
at `back` when the function returns; `ret` is the error returned by the external call of
the statement at `pc`. -/
def setupControllers (t : Tid) (back : Pc) (pc : Pc) (ret : Option String) (s : State) :
    Option State :=
  match pc with
  | .controller =>
    some (guarded t .ControllerAddToManager (extErr ret) .webhook s)
  | .webhook =>
    some (guarded t .WebhookAddToManager (extErr ret) .leave s)
  | .leave =>
    some (setPc t back (emit [.leave t] s))
  | _ => none

/-- One statement of `main` (lines 62-184), taken by the main flow standing at `pc`;
`ret` is the error returned by the external call of that statement, if it makes one, and
`enable` is `initConfig.CertGeneratorConfig.Enable`. `none` at a program point that is
not one of `main`. -/
def main (enable : Bool) (pc : Pc) (ret : Option String) (s : State) : Option State :=
  match pc with
  | .getInitConfigData =>
    some (guarded .main .GetInitConfigData (extErr ret) .trialResourcesToGVKs s)
  | .trialResourcesToGVKs =>
    some (guarded .main .TrialResourcesToGVKs (extErr ret) .getConfig s)
  | .getConfig =>
    some (guarded .main .GetConfig (extErr ret) .managerNew s)
  | .managerNew =>
    some (guarded .main .ManagerNew (extErr ret) .newServer s)
  | .newServer =>
    some (setPc .main .readyzWebhook (emit [.call .main .NewServer none] s))
  | .readyzWebhook =>
    let r := s.mgr.AddReadyzCheck (extErr ret) "webhook"
    some (guarded .main (.AddReadyzCheck "webhook") r.2
      (if enable then .makeChan else .callSetup) { s with mgr := r.1 })
  | .makeChan =>
    some (setPc .main .readyzCert (emit [.makeChan] { s with certsReady := some make }))
  | .readyzCert =>
    let r := s.mgr.AddReadyzCheck (extErr ret) "cert"
    some (guarded .main (.AddReadyzCheck "cert") r.2 .certAddToManager { s with mgr := r.1 })
  | .certAddToManager =>
    let r := certAddToManager s.mgr (extErr ret)
    some (guarded .main .CertAddToManager r.2 .goWaiter { s with mgr := r.1 })
  | .goWaiter =>
    some (setPc .main .healthz (emit [.go] { s with waiter := some .recv }))
  | .callSetup =>
    some (setPc .main .controller (emit [.enter .main] s))
  | .controller | .webhook | .leave =>
    setupControllers .main .healthz pc ret s
  | .healthz =>
    let r := s.mgr.AddHealthzCheck (extErr ret) "healthz"
    some (guarded .main (.AddHealthzCheck "healthz") r.2 .startCall { s with mgr := r.1 })
  | .startCall =>
    some (setPc .main .startReturn (emit [.start] s))
  | .startReturn =>
    some (guarded .main .MgrStart (extErr ret) .ret s)
  | .ret =>
    some (osExit 0 s)
  | .recv | .done => none

/-- One statement of the goroutine started at line 161: the receive from `certsReady`,
which can only proceed on a channel that lets it, then `setupControllers`. `none` when
the statement cannot run now, and once the goroutine has returned. -/
def waiter (pc : Pc) (ret : Option String) (s : State) : Option State :=
  match pc with
  | .recv =>
    match s.certsReady with
    | some c =>
      if recvReady c then some (setPc .waiter .callSetup (emit [.recv] s)) else none
    | none => none
  | .callSetup =>
    some (setPc .waiter .controller (emit [.enter .waiter] s))
  | .controller | .webhook | .leave =>
    setupControllers .waiter .done pc ret s
  | _ => none

/-- What the scheduler and the environment can do next. -/
inductive Action
  /-- the main flow executes its next statement, whose external call returns `ret`. -/
  | main (ret : Option String)
  /-- the waiter executes its next statement, whose external call returns `ret`. -/
  | waiter (ret : Option String)
  /-- the certificate provisioner signals the channel it was given. -/
  | signal
  deriving DecidableEq, Repr

/-- Modelled from the spec: the certificate provisioner, whose code is not in the two
files. It exists once `cert.AddToManager` has returned nil, runs concurrently with
everything else and signals the gate at most once, which takes the gate from Pending to
Satisfied for every observer: on a Go channel, `close`. -/
def signal (s : State) : Option State :=
  match s.certsReady with
  | some c =>
    if s.mgr.certGenerator && !c.closed then
      some (emit [.signal] { s with certsReady := some (close c) })
    else none
  | none => none

/-- One transition of the process: nothing happens after it has ended; otherwise one
goroutine, or the provisioner, takes a step. `none` when `a` cannot happen in `s`. -/
def step (enable : Bool) (s : State) (a : Action) : Option State :=
  if s.exit.isSome then none
  else
    match a with
    | .main ret => main enable s.main ret s
    | .waiter ret =>
      match s.waiter with
      | some pc => waiter pc ret s
      | none => none
    | .signal => signal s

/-- An execution: the transitions `as` taken one after the other from `s`; `none` when
one of them cannot happen. Every interleaving of the main flow, the waiter and the
provisioner, with every outcome of every external call, is `run enable State.init as`
for some `as`. -/
def run (enable : Bool) : State → List Action → Option State
  | s, [] => some s
  | s, a :: as =>
    match step enable s a with
    | some s' => run enable s' as
    | none => none

/-! ## main.go at the grain of single statements -/

/-- The process with `os.Exit(1)` as a statement of its own: the state as before, and
for each goroutine whether its last call has returned an error, so that it stands
between that call and the `log.Error(...); os.Exit(1)` of the same `if`. -/
structure Proc where
  s : State
  mainFailed : Bool
  waiterFailed : Bool
  deriving DecidableEq, Repr

/-- The process when `main` is entered. -/
def Proc.init : Proc := ⟨State.init, false, false⟩

/-- Whether goroutine `t` stands between a call that returned an error and its exit. -/
def Proc.failed (p : Proc) : Tid → Bool
  | .main => p.mainFailed
  | .waiter => p.waiterFailed

/-- The statement goroutine `t` stands at, if the goroutine exists. -/
def Proc.pc (p : Proc) : Tid → Option Pc
  | .main => some p.s.main
  | .waiter => p.s.waiter

/-- Goroutine `t` has got an error from its call. -/
def Proc.fail (t : Tid) (p : Proc) : Proc :=
  match t with
  | .main => { p with mainFailed := true }
  | .waiter => { p with waiterFailed := true }

/-- The action of goroutine `t` whose external call returns `ret`. -/
def Action.of (t : Tid) (ret : Option String) : Action :=
  match t with
  | .main => .main ret
  | .waiter => .waiter ret

/-- A statement of goroutine `t` whose coarse outcome is `r`: when `r` ends the process
with status 1, which only `guarded` on an error does, only the first half happens here,
the call returning its error (`r` without its exit), and `t` is left before its
`os.Exit(1)`. Every other outcome is taken as it is. -/
def Proc.stmt (t : Tid) (p : Proc) (r : Option State) : Option Proc :=
  match r with
  | none => none
  | some s' =>
    if s'.exit = some 1 then
      some (Proc.fail t { p with s := { s' with exit := none, trace := s'.trace.dropLast } })
    else some { p with s := s' }

/-- One transition at the grain of single statements: a goroutine that got an error runs
its `log.Error(...); os.Exit(1)`; otherwise it runs its next statement, of which a
failing call is only the first half; the provisioner signals as before. -/
def Proc.step (enable : Bool) (p : Proc) (a : Action) : Option Proc :=
  if p.s.exit.isSome then none
  else
    match a with
    | .main ret =>
      if p.mainFailed then some { p with s := osExit 1 p.s }
      else p.stmt .main (main enable p.s.main ret p.s)
    | .waiter ret =>
      match p.s.waiter with
      | some pc =>
        if p.waiterFailed then some { p with s := osExit 1 p.s }
        else p.stmt .waiter (waiter pc ret p.s)
      | none => none
    | .signal => (signal p.s).map fun s' => { p with s := s' }

/-- An execution at the grain of single statements. -/
def Proc.run (enable : Bool) : Proc → List Action → Option Proc
  | p, [] => some p
  | p, a :: as =>
    match Proc.step enable p a with
    | some p' => Proc.run enable p' as
    | none => none

/-! ## Sample inputs -/

/-- An environment in which every external call of `AddToManager` succeeds. -/
def Env.ok : Env := ⟨fun _ => none, none, none⟩

/-- An environment in which only `cert.AddToManager` fails. -/
def Env.certFails : Env := ⟨fun _ => none, some "no secret", none⟩

/-- The world before `AddToManager` is called on a fresh manager and hook server. -/
def World.fresh : World := ⟨Manager.new, ⟨[], []⟩, none⟩

/-- The world `AddToManager` leaves from `World.fresh` when provisioning is enabled and
every call succeeds. -/
def World.wired : World :=
  ⟨⟨["cert", "webhook"], [], true, [.gatedWebhookServer]⟩,
   ⟨["/validate-experiment", "/mutate-experiment", "/mutate-pod"], []⟩, some make⟩


/-- The world `AddToManager` leaves from `World.fresh` when provisioning is enabled and
`cert.AddToManager` fails: the "cert" readiness check and nothing else. -/
def World.certOnly : World := ⟨⟨["cert"], [], false, []⟩, ⟨[], []⟩, some make⟩

/-- `n` statements of the main flow, every external call succeeding. -/
def mainOk (n : Nat) : List Action := List.replicate n (.main none)

/-- Provisioning enabled: the main flow up to the call of `mgr.Start` (12 statements),
then the signal, the waiter through `setupControllers`, and `mgr.Start` returning nil. -/
def Demo.enabled : List Action :=
  mainOk 12 ++ [.signal, .waiter none, .waiter none, .waiter none, .waiter none,
    .waiter none, .main none, .main none]

/-- Provisioning disabled, every call succeeding, up to the return of `main`. -/
def Demo.disabled : List Action := mainOk 14

/-- Provisioning enabled and `cert.AddToManager` (the ninth statement) failing. -/
def Demo.certFails : List Action := mainOk 8 ++ [.main (some "no secret")]

/-- Provisioning enabled, the signal arriving while `mgr.Start` runs, and
`controller.AddToManager` failing in the waiter. -/
def Demo.controllerFails : List Action :=
  mainOk 12 ++ [.signal, .waiter none, .waiter none, .waiter (some "no CRD")]

/-- Provisioning enabled, at the grain of single statements: the gate is signalled as
soon as the waiter has been spawned, `controller.AddToManager` fails in the waiter, and
before the waiter runs its `os.Exit(1)` the main flow registers the liveness check,
calls `mgr.Start`, gets nil from it and returns. -/
def Demo.race : List Action :=
  mainOk 10 ++ [.signal, .waiter none, .waiter none, .waiter (some "no CRD"),
    .main none, .main none, .main none, .main none]

/-- The configuration loader (the first statement) failing. -/
def Demo.configFails : List Action := [.main (some "no such file")]

/-- The state an execution ends in; `State.init` stands for an execution that cannot
happen. -/
def finalState (enable : Bool) (as : List Action) : State :=
  (run enable State.init as).getD State.init

/-- The process an execution at the grain of single statements ends in; `Proc.init`
stands for an execution that cannot happen. -/
def finalProc (enable : Bool) (as : List Action) : Proc :=
  (Proc.run enable Proc.init as).getD Proc.init

/-! ## Vocabulary of the statements -/

/-- An evaluation of the runnable's `select`. -/
def RunnableAction.isWake : RunnableAction → Bool
  | .wake _ => true
  | _ => false

/-- A cancellation of the runnable's context. -/
def RunnableAction.isCancel : RunnableAction → Bool
  | .cancel _ => true
  | _ => false

/-- Every event of `tr` that satisfies `B` has `P` true of the events before it. -/
def Before (P : List Event → Prop) (B : Event → Bool) (tr : List Event) : Prop :=
  ∀ pre x post, tr = pre ++ x :: post → B x = true → P pre

/-- An event of `setupControllers`: its call, or one of its two registrations. -/
def Event.isSetup : Event → Bool
  | .enter _ => true
  | .call _ .ControllerAddToManager _ => true
  | .call _ .WebhookAddToManager _ => true
  | _ => false

/-- The liveness check being registered, or `mgr.Start` being called. -/
def Event.isServe : Event → Bool
  | .call _ (.AddHealthzCheck _) _ => true
  | .start => true
  | _ => false

/-- An event of the background waiter, its creation included. -/
def Event.byWaiter : Event → Bool
  | .go => true
  | .recv => true
  | .enter .waiter => true
  | .leave .waiter => true
  | .call .waiter _ _ => true
  | _ => false

/-- A probe registration, whatever it returned. -/
def Event.isProbe : Event → Bool
  | .call _ (.AddReadyzCheck _) _ => true
  | .call _ (.AddHealthzCheck _) _ => true
  | _ => false

/-- A call refused by the probe registry because of a name collision. -/
def Event.isCollision : Event → Bool
  | .call _ _ (some (.collision _)) => true
  | _ => false

/-- An event that main.go only produces after `cert.AddToManager` has returned nil. -/
def Event.afterCert : Event → Bool
  | .go => true
  | .signal => true
  | .recv => true
  | .enter _ => true
  | .leave _ => true
  | .start => true
  | .call .waiter _ _ => true
  | .call _ (.AddHealthzCheck _) _ => true
  | .call _ .ControllerAddToManager _ => true
  | .call _ .WebhookAddToManager _ => true
  | .call _ .MgrStart _ => true
  | _ => false

/-- `setupControllers` run from call to return on the main flow, both registrations
succeeding. -/
def setupOnMain : List Event :=
  [.enter .main, .call .main .ControllerAddToManager none,
   .call .main .WebhookAddToManager none, .leave .main]

/-- The program points of the waiter goroutine (lines 163-165 and `setupControllers`). -/
def Pc.ofWaiter : Pc → Bool
  | .recv | .callSetup | .controller | .webhook | .leave | .done => true
  | _ => false

/-- The program points the main flow can stand at, for a value of `Enable`. -/
def Pc.ofMain (enable : Bool) : Pc → Bool
  | .makeChan | .readyzCert | .certAddToManager | .goWaiter => enable
  | .callSetup | .controller | .webhook | .leave => !enable
  | .recv | .done => false
  | _ => true

/-- The program points of `main` up to and including the call of `cert.AddToManager`. -/
def Pc.upToCert : Pc → Bool
  | .getInitConfigData | .trialResourcesToGVKs | .getConfig | .managerNew | .newServer
  | .readyzWebhook | .makeChan | .readyzCert | .certAddToManager => true
  | _ => false

/-- The program points of `main` that follow `setupControllers` when it is called in
line. -/
def Pc.afterSetup : Pc → Bool
  | .healthz | .startCall | .startReturn | .ret => true
  | _ => false

/-- The program points of `main` that register a probe. -/
def Pc.registers : Pc → Bool
  | .readyzWebhook | .readyzCert | .healthz => true
  | _ => false

/-- The events of `setupControllers` the main flow has just produced when it stands
inside it. -/
def setupSeen : Pc → List Event
  | .controller => [.enter .main]
  | .webhook => [.enter .main, .call .main .ControllerAddToManager none]
  | .leave =>
    [.enter .main, .call .main .ControllerAddToManager none,
     .call .main .WebhookAddToManager none]
  | _ => []

/-- The channel the main flow has made, by program point, up to `cert.AddToManager`. -/
def chanAt : Pc → Option Chan
  | .readyzCert | .certAddToManager => some make
  | _ => none

/-- The readiness checks `main` has registered when it stands at a program point. -/
def readyzAt (enable : Bool) : Pc → List String
  | .getInitConfigData | .trialResourcesToGVKs | .getConfig | .managerNew | .newServer
  | .readyzWebhook | .recv | .done => []
  | .makeChan | .readyzCert | .callSetup | .controller | .webhook | .leave => ["webhook"]
  | .certAddToManager | .goWaiter => ["webhook", "cert"]
  | .healthz | .startCall | .startReturn | .ret =>
    if enable then ["webhook", "cert"] else ["webhook"]

/-- The liveness checks `main` has registered when it stands at a program point. -/
def healthzAt : Pc → List String
  | .startCall | .startReturn | .ret => ["healthz"]
  | _ => []

/-- The probe registrations of `main`, in order, when it stands at a program point. -/
def probesAt (enable : Bool) (pc : Pc) : List Event :=
  (readyzAt enable pc).map (fun n => .call .main (.AddReadyzCheck n) none)
    ++ (healthzAt pc).map (fun n => .call .main (.AddHealthzCheck n) none)

/-- An event of the main flow. -/
def Event.onMain : Event → Bool
  | .call .main _ _ => true
  | .makeChan => true
  | .go => true
  | .enter .main => true
  | .leave .main => true
  | .start => true
  | _ => false

/-- An event of the waiter. -/
def Event.onWaiter : Event → Bool
  | .call .waiter _ _ => true
  | .recv => true
  | .enter .waiter => true
  | .leave .waiter => true
  | _ => false

/-- The mandatory startup step called by the statement at a program point. -/
def callAt : Pc → Option Call
  | .getInitConfigData => some .GetInitConfigData
  | .trialResourcesToGVKs => some .TrialResourcesToGVKs
  | .getConfig => some .GetConfig
  | .managerNew => some .ManagerNew
  | .readyzWebhook => some (.AddReadyzCheck "webhook")
  | .readyzCert => some (.AddReadyzCheck "cert")
  | .certAddToManager => some .CertAddToManager
  | .controller => some .ControllerAddToManager
  | .webhook => some .WebhookAddToManager
  | .healthz => some (.AddHealthzCheck "healthz")
  | .startReturn => some .MgrStart
  | _ => none

/-- Everything the main flow does from the entry of `main` to the return of `mgr.Start`
when every call returns nil, in order. -/
def mainSeq (enable : Bool) : List Event :=
  [.call .main .GetInitConfigData none, .call .main .TrialResourcesToGVKs none,
   .call .main .GetConfig none, .call .main .ManagerNew none, .call .main .NewServer none,
   .call .main (.AddReadyzCheck "webhook") none] ++
  (if enable then
    [.makeChan, .call .main (.AddReadyzCheck "cert") none,
     .call .main .CertAddToManager none, .go]
  else
    [.enter .main, .call .main .ControllerAddToManager none,
     .call .main .WebhookAddToManager none, .leave .main]) ++
  [.call .main (.AddHealthzCheck "healthz") none, .start, .call .main .MgrStart none]

/-- How many statements the main flow has behind it at a program point. -/
def Pc.behind : Pc → Nat
  | .getInitConfigData => 0
  | .trialResourcesToGVKs => 1
  | .getConfig => 2
  | .managerNew => 3
  | .newServer => 4
  | .readyzWebhook => 5
  | .makeChan | .callSetup => 6
  | .readyzCert | .controller => 7
  | .certAddToManager | .webhook => 8
  | .goWaiter | .leave => 9
  | .healthz => 10
  | .startCall => 11
  | .startReturn => 12
  | .ret => 13
  | .recv | .done => 0

/-- What the main flow has done when it stands at a program point. -/
def mainTrace (enable : Bool) (pc : Pc) : List Event :=
  (mainSeq enable).take pc.behind

/-- What the waiter has done when it stands at a program point. -/
def waiterTrace : Pc → List Event
  | .callSetup => [.recv]
  | .controller => [.recv, .enter .waiter]
  | .webhook => [.recv, .enter .waiter, .call .waiter .ControllerAddToManager none]
  | .leave =>
    [.recv, .enter .waiter, .call .waiter .ControllerAddToManager none,
     .call .waiter .WebhookAddToManager none]
  | .done =>
    [.recv, .enter .waiter, .call .waiter .ControllerAddToManager none,
     .call .waiter .WebhookAddToManager none, .leave .waiter]
  | _ => []

/-- The events `evs` are those of a goroutine that has done `done` and, when it
`failed`, after them the one call of the statement at `pc`, returning an error: every
call before returned nil and nothing follows the call that did not. -/
def Fate (t : Tid) (pc : Pc) (done : List Event) (failed : Bool) (evs : List Event) : Prop :=
  if failed then ∃ c e, callAt pc = some c ∧ evs = done ++ [.call t c (some e)]
  else evs = done

/-- The waiter's events are those of its statements up to where it stands; there are
none before it is spawned. -/
def WaiterFate (w : Option Pc) (failed : Bool) (evs : List Event) : Prop :=
  match w with
  | none => failed = false ∧ evs = []
  | some pc => pc.ofWaiter = true ∧ Fate .waiter pc (waiterTrace pc) failed evs

/-- The invariant behind the amended C5, at the grain of single statements. -/
structure Careful (enable : Bool) (p : Proc) : Prop where
  main : p.s.main.ofMain enable = true
  mainFate : Fate .main p.s.main (mainTrace enable p.s.main) p.mainFailed
    (p.s.trace.filter Event.onMain)
  waiterFate : WaiterFate p.s.waiter p.waiterFailed (p.s.trace.filter Event.onWaiter)
  status : ∀ code, p.s.exit = some code →
    (code = 0 ∧ p.s.main = .ret ∧ p.mainFailed = false) ∨
    (code = 1 ∧ (p.mainFailed = true ∨ p.waiterFailed = true))
  unborn : p.s.main.behind < 10 → p.s.waiter = none
  born : enable = true → 10 ≤ p.s.main.behind → p.s.waiter ≠ none
  quiet : p.s.main.behind < 9 → p.s.mgr.certGenerator = false
  alone : enable = false → p.s.waiter = none ∧ p.s.certsReady = none

/-- The invariant behind C1, for executions with provisioning enabled. -/
structure Gated (s : State) : Prop where
  before : Before (fun pre => Event.signal ∈ pre) Event.isSetup s.trace
  main : s.main.ofWaiter = false
  waiter : ∀ pc, s.waiter = some pc →
    pc.ofWaiter = true ∧ (pc ≠ .recv → Event.signal ∈ s.trace)
  closed : ∀ c, s.certsReady = some c → c.closed = true → Event.signal ∈ s.trace

/-- The invariant behind C4, for executions with provisioning disabled. -/
structure Inline (s : State) : Prop where
  waiter : s.waiter = none
  chan : s.certsReady = none
  main : s.main.ofMain false = true
  quiet : s.trace.filter Event.byWaiter = []
  seen : s.exit = none → ∃ t, s.trace = t ++ setupSeen s.main
  done : s.main.afterSetup = true → setupOnMain <:+: s.trace
  before : Before (fun pre => setupOnMain <:+: pre) Event.isServe s.trace

/-- The invariant behind the amended C6, for executions with provisioning enabled. -/
structure CertFatal (s : State) : Prop where
  early : s.main.upToCert = true →
    s.waiter = none ∧ s.mgr.certGenerator = false ∧ s.certsReady = chanAt s.main ∧
      s.trace.filter Event.afterCert = []
  failed : ∀ e, Event.call .main .CertAddToManager (some e) ∈ s.trace →
    s.exit = some 1 ∧ s.main = .certAddToManager

/-- The invariant behind C8. -/
structure Probes (enable : Bool) (s : State) : Prop where
  waiter : ∀ pc, s.waiter = some pc → pc.ofWaiter = true
  main : s.main.ofMain enable = true
  readyz : s.mgr.readyz = readyzAt enable s.main
  healthz : s.mgr.healthz = healthzAt s.main
  probes : s.trace.filter Event.isProbe = probesAt enable s.main ∨
    (s.exit = some 1 ∧ s.main.registers = true)
  collisions : s.trace.filter Event.isCollision = []
  started : Event.start ∈ s.trace → s.main = .startReturn ∨ s.main = .ret

/-- The invariant behind C9. -/
structure ConfigFirst (s : State) : Prop where
  fresh : s.main = .getInitConfigData →
    s.mgr = Manager.new ∧ s.waiter = none ∧ s.certsReady = none ∧
      (s.exit = none → s.trace = [])
  failed : ∀ e, Event.call .main .GetInitConfigData (some e) ∈ s.trace →
    s.trace = [.call .main .GetInitConfigData (some e), .exit 1] ∧ s.exit = some 1 ∧
      s.main = .getInitConfigData

/-! ## Theorems: webhook.go -/

theorem runnable_start_closed (hookServerStart : Context → Option Error) (pickDone : Bool)
    (ctx : Context) (certsReady : Chan) (r : RunnableResult)
    (h : runnable hookServerStart pickDone ctx certsReady = .done r)
    (hr : r.startCalls ≠ []) : certsReady.closed = true := by
  unfold runnable recvReady at h
  cases hc : certsReady.closed
  · rw [hc] at h
    cases hd : ctx.done <;> rw [hd] at h <;> simp at h
    subst h
    simp at hr
  · rfl

theorem RunnableState.step_open (f : Context → Option Error) (s : RunnableState)
    (a : RunnableAction) (hc : s.certsReady.closed = false) (ha : a ≠ .signal) :
    (s.step f a).certsReady.closed = false ∧
      (s.step f a).hookServer.started = s.hookServer.started := by
  cases a with
  | signal => exact absurd rfl ha
  | cancel e =>
    simp only [RunnableState.step]
    cases s.ctx.err <;> exact ⟨hc, rfl⟩
  | wake p =>
    simp only [RunnableState.step]
    cases s.result with
    | some r0 => exact ⟨hc, rfl⟩
    | none =>
      cases hrun : runnable f p s.ctx s.certsReady with
      | blocked => exact ⟨hc, rfl⟩
      | done r =>
        have hr : r.startCalls = [] := by
          by_contra hne
          have := runnable_start_closed f p s.ctx s.certsReady r hrun hne
          rw [hc] at this
          exact Bool.noConfusion this
        exact ⟨hc, by simp [hr]⟩

theorem RunnableState.run_open (f : Context → Option Error) (tl : List RunnableAction) :
    ∀ s : RunnableState, s.certsReady.closed = false → RunnableAction.signal ∉ tl →
      (RunnableState.run f s tl).hookServer.started = s.hookServer.started := by
  induction tl with
  | nil => intro s _ _; rfl
  | cons a tl ih =>
    intro s hc hn
    simp only [List.mem_cons, not_or] at hn
    obtain ⟨ha, hn⟩ := hn
    have hs := RunnableState.step_open f s a hc (fun h => ha h.symm)
    simp only [RunnableState.run]
    rw [ih _ hs.1 hn, hs.2]

theorem AddToManager_ok_enable (env : Env) (w w' : World)
    (h : AddToManager env ⟨true⟩ w = (w', none)) :
    w' = ⟨⟨w.mgr.readyz ++ ["cert", "webhook"], w.mgr.healthz, true,
            w.mgr.runnables ++ [.gatedWebhookServer]⟩,
          ⟨w.hookServer.handlers ++ ["/validate-experiment", "/mutate-experiment", "/mutate-pod"],
            w.hookServer.started⟩,
          some make⟩ := by
  cases h1 : env.addReadyzCheck "cert" <;> cases h2 : env.certAddToManager <;>
    cases h3 : env.addReadyzCheck "webhook" <;> cases h4 : env.add <;>
    by_cases hm : "cert" ∈ w.mgr.readyz <;> by_cases hm2 : "webhook" ∈ w.mgr.readyz <;>
    simp [AddToManager, AddToManager.certs, World.addReadyzCheck, World.register,
      Manager.AddReadyzCheck, Manager.Add, certAddToManager, HookServer.Register, extErr,
      h1, h2, h3, h4, hm, hm2] at h ⊢
  exact h.symm

/-- C2: for the runnable that `AddToManager` adds when `certsCfg.Enable` is true: the
gate it waits on is the channel made by that call and is still pending when the call
returns, and over any sequence of cancellations and evaluations of the runnable's
`select` that contains no signal of the gate, with any context (cancelled or not),
`hookServer.Start` is not called. -/
theorem C2_start_only_after_certsReady (env : Env) (w w' : World)
    (hookServerStart : Context → Option Error) (ctx : Context)
    (tl : List RunnableAction)
    (h : AddToManager env ⟨true⟩ w = (w', none)) :
    Runnable.gatedWebhookServer ∈ w'.mgr.runnables ∧
    w'.certsReady = some make ∧
    w'.hookServer.started = w.hookServer.started ∧
    (RunnableAction.signal ∉ tl →
      (RunnableState.run hookServerStart ⟨make, ctx, none, w'.hookServer⟩ tl).hookServer.started
        = w'.hookServer.started) := by
  have hw := AddToManager_ok_enable env w w' h
  subst hw
  exact ⟨by simp, rfl, rfl, fun hn => RunnableState.run_open hookServerStart tl _ rfl hn⟩

/-- C2, at a concrete input: a fresh manager, a context that is cancelled while the gate
is pending, and the runnable evaluated twice. -/
theorem C2_witness :
    AddToManager Env.ok ⟨true⟩ World.fresh = (World.wired, none) ∧
    (RunnableState.run (fun _ => none) ⟨make, ⟨0, none⟩, none, World.wired.hookServer⟩
      [.wake false, .cancel (.errorf "context canceled"), .wake false]).hookServer.started
      = [] :=
  ⟨by decide,
   (C2_start_only_after_certsReady Env.ok World.fresh World.wired (fun _ => none) ⟨0, none⟩
      [.wake false, .cancel (.errorf "context canceled"), .wake false] (by decide)).2.2.2
      (by decide)⟩

theorem runnable_life_append (f : Context → Option Error) (s : RunnableState)
    (xs ys : List RunnableAction) :
    RunnableState.run f s (xs ++ ys) = RunnableState.run f (RunnableState.run f s xs) ys := by
  induction xs generalizing s with
  | nil => rfl
  | cons a xs ih => simp [RunnableState.run, ih]

theorem runnable_life_idle (f : Context → Option Error) (tl : List RunnableAction) :
    ∀ s : RunnableState, s.result = none → s.certsReady.closed = false → s.ctx.err = none →
      (∀ a ∈ tl, a.isWake = true) → RunnableState.run f s tl = s := by
  induction tl with
  | nil => intro s _ _ _ _; rfl
  | cons a tl ih =>
    intro s hr hc he hw
    have ha := hw a (by simp)
    cases a with
    | signal => simp [RunnableAction.isWake] at ha
    | cancel e => simp [RunnableAction.isWake] at ha
    | wake p =>
      have hstep : s.step f (.wake p) = s := by
        simp [RunnableState.step, hr, runnable, Context.done, recvReady, hc, he]
      simp only [RunnableState.run, hstep]
      exact ih s hr hc he fun b hb => hw b (by simp [hb])

theorem runnable_life_settled (f : Context → Option Error) (tl : List RunnableAction) :
    ∀ (s : RunnableState) (r : RunnableResult), s.result = some r →
      (RunnableState.run f s tl).result = some r ∧
      (RunnableState.run f s tl).hookServer.started = s.hookServer.started := by
  induction tl with
  | nil => intro s r hr; exact ⟨hr, rfl⟩
  | cons a tl ih =>
    intro s r hr
    have hstep : (s.step f a).result = some r ∧
        (s.step f a).hookServer.started = s.hookServer.started := by
      cases a with
      | signal => exact ⟨hr, rfl⟩
      | cancel e =>
        simp only [RunnableState.step]
        cases s.ctx.err <;> exact ⟨hr, rfl⟩
      | wake p => simp [RunnableState.step, hr]
    simp only [RunnableState.run]
    have := ih (s.step f a) r hstep.1
    exact ⟨this.1, this.2.trans hstep.2⟩

theorem runnable_step_cancelled (f : Context → Option Error) (s : RunnableState) (e : Error)
    (a : RunnableAction) (hc : s.certsReady.closed = false) (he : s.ctx.err = some e)
    (hr : s.result = none ∨ s.result = some ⟨some e, []⟩) (ha : a ≠ .signal) :
    (s.step f a).certsReady.closed = false ∧ (s.step f a).ctx.err = some e ∧
    (s.step f a).hookServer.started = s.hookServer.started ∧
    ((s.step f a).result = none ∨ (s.step f a).result = some ⟨some e, []⟩) ∧
    (a.isWake = true → (s.step f a).result = some ⟨some e, []⟩) := by
  cases a with
  | signal => exact absurd rfl ha
  | cancel e' => simp [RunnableState.step, he, hc, hr, RunnableAction.isWake]
  | wake p =>
    rcases hr with hr | hr
    · simp [RunnableState.step, hr, runnable, Context.done, recvReady, hc, he]
    · simp [RunnableState.step, hr, hc, he]

theorem runnable_life_cancelled (f : Context → Option Error) (e : Error)
    (tl : List RunnableAction) :
    ∀ s : RunnableState, s.certsReady.closed = false → s.ctx.err = some e →
      (s.result = none ∨ s.result = some ⟨some e, []⟩) → RunnableAction.signal ∉ tl →
      (RunnableState.run f s tl).certsReady.closed = false ∧
      (RunnableState.run f s tl).ctx.err = some e ∧
      (RunnableState.run f s tl).hookServer.started = s.hookServer.started ∧
      ((RunnableState.run f s tl).result = none ∨
        (RunnableState.run f s tl).result = some ⟨some e, []⟩) := by
  induction tl with
  | nil => intro s hc he hr _; exact ⟨hc, he, rfl, hr⟩
  | cons a tl ih =>
    intro s hc he hr hn
    simp only [List.mem_cons, not_or] at hn
    obtain ⟨h1, h2, h3, h4, -⟩ := runnable_step_cancelled f s e a hc he hr (fun h => hn.1 h.symm)
    simp only [RunnableState.run]
    obtain ⟨k1, k2, k3, k4⟩ := ih (s.step f a) h1 h2 h4 hn.2
    exact ⟨k1, k2, k3.trans h3, k4⟩

theorem runnable_step_open (f : Context → Option Error) (s : RunnableState) (c : Context)
    (st : List Context) (a : RunnableAction) (hc : s.certsReady.closed = true)
    (hx : s.ctx = c) (he : c.err = none)
    (hr : (s.result = none ∧ s.hookServer.started = st) ∨
      (s.result = some ⟨f c, [c]⟩ ∧ s.hookServer.started = st ++ [c]))
    (ha : a.isCancel = false) :
    (s.step f a).certsReady.closed = true ∧ (s.step f a).ctx = c ∧
    (((s.step f a).result = none ∧ (s.step f a).hookServer.started = st) ∨
      ((s.step f a).result = some ⟨f c, [c]⟩ ∧
        (s.step f a).hookServer.started = st ++ [c])) ∧
    (a.isWake = true → (s.step f a).result = some ⟨f c, [c]⟩ ∧
      (s.step f a).hookServer.started = st ++ [c]) := by
  subst hx
  cases a with
  | signal => simp [RunnableState.step, close, hr, RunnableAction.isWake]
  | cancel e' => simp [RunnableAction.isCancel] at ha
  | wake p =>
    rcases hr with ⟨hr, hst⟩ | ⟨hr, hst⟩
    · simp [RunnableState.step, hr, runnable, Context.done, recvReady, hc, he, hst]
    · simp [RunnableState.step, hr, hc, hst]

theorem runnable_life_open (f : Context → Option Error) (c : Context) (st : List Context)
    (tl : List RunnableAction) :
    ∀ s : RunnableState, s.certsReady.closed = true → s.ctx = c → c.err = none →
      ((s.result = none ∧ s.hookServer.started = st) ∨
        (s.result = some ⟨f c, [c]⟩ ∧ s.hookServer.started = st ++ [c])) →
      (∀ a ∈ tl, a.isCancel = false) →
      (RunnableState.run f s tl).certsReady.closed = true ∧
      (RunnableState.run f s tl).ctx = c ∧
      (((RunnableState.run f s tl).result = none ∧
          (RunnableState.run f s tl).hookServer.started = st) ∨
        ((RunnableState.run f s tl).result = some ⟨f c, [c]⟩ ∧
          (RunnableState.run f s tl).hookServer.started = st ++ [c])) := by
  induction tl with
  | nil => intro s hc hx _ hr _; exact ⟨hc, hx, hr⟩
  | cons a tl ih =>
    intro s hc hx he hr hn
    obtain ⟨h1, h2, h3, -⟩ := runnable_step_open f s c st a hc hx he hr (hn a (by simp))
    simp only [RunnableState.run]
    exact ih (s.step f a) h1 h2 he h3 fun b hb => hn b (by simp [hb])

/-- C10: the life of the runnable that `AddToManager` adds, from a pending gate and a live
context, with any interleaving of later events. While neither case of its `select` is
ready the runnable waits: evaluating it changes nothing. If the context is cancelled (with
error `e`) while the gate is pending and the runnable wakes before any signal, it returns
`ctx.Err()`, that is `e`, and `hookServer.Start` is never called, whatever happens later.
If the gate is signalled and the runnable wakes before any cancellation, what it returns
is what `hookServer.Start(ctx)` returns, `Start` having been called once, with that same
context. -/
theorem C10_runnable_life (hookServerStart : Context → Option Error) (id : Nat)
    (hs : HookServer) (e : Error) (pickDone : Bool) (idle mid rest : List RunnableAction)
    (hidle : ∀ a ∈ idle, a.isWake = true) :
    RunnableState.run hookServerStart ⟨make, ⟨id, none⟩, none, hs⟩ idle
      = ⟨make, ⟨id, none⟩, none, hs⟩ ∧
    (RunnableAction.signal ∉ mid →
      (RunnableState.run hookServerStart ⟨make, ⟨id, none⟩, none, hs⟩
        (idle ++ .cancel e :: (mid ++ .wake pickDone :: rest))).result
          = some ⟨some e, []⟩ ∧
      (RunnableState.run hookServerStart ⟨make, ⟨id, none⟩, none, hs⟩
        (idle ++ .cancel e :: (mid ++ .wake pickDone :: rest))).hookServer.started
          = hs.started) ∧
    ((∀ a ∈ mid, a.isCancel = false) →
      (RunnableState.run hookServerStart ⟨make, ⟨id, none⟩, none, hs⟩
        (idle ++ .signal :: (mid ++ .wake pickDone :: rest))).result
          = some ⟨hookServerStart ⟨id, none⟩, [⟨id, none⟩]⟩ ∧
      (RunnableState.run hookServerStart ⟨make, ⟨id, none⟩, none, hs⟩
        (idle ++ .signal :: (mid ++ .wake pickDone :: rest))).hookServer.started
          = hs.started ++ [⟨id, none⟩]) := by
  have h0 := runnable_life_idle hookServerStart idle ⟨make, ⟨id, none⟩, none, hs⟩
    rfl rfl rfl hidle
  refine ⟨h0, fun hn => ?_, fun hn => ?_⟩
  · rw [runnable_life_append, h0]
    simp only [RunnableState.run]
    rw [runnable_life_append]
    simp only [RunnableState.run]
    obtain ⟨k1, k2, k3, k4⟩ := runnable_life_cancelled hookServerStart e mid
      (RunnableState.step hookServerStart ⟨make, ⟨id, none⟩, none, hs⟩ (.cancel e))
      rfl rfl (Or.inl rfl) hn
    obtain ⟨-, -, j3, -, j5⟩ := runnable_step_cancelled hookServerStart _ e (.wake pickDone)
      k1 k2 k4 (by simp)
    obtain ⟨m1, m2⟩ := runnable_life_settled hookServerStart rest _ _ (j5 rfl)
    exact ⟨m1, m2.trans (j3.trans k3)⟩
  · rw [runnable_life_append, h0]
    simp only [RunnableState.run]
    rw [runnable_life_append]
    simp only [RunnableState.run]
    obtain ⟨k1, k2, k3⟩ := runnable_life_open hookServerStart ⟨id, none⟩ hs.started mid
      (RunnableState.step hookServerStart ⟨make, ⟨id, none⟩, none, hs⟩ .signal)
      rfl rfl rfl (Or.inl ⟨rfl, rfl⟩) hn
    obtain ⟨-, -, -, j4⟩ := runnable_step_open hookServerStart _ ⟨id, none⟩ hs.started
      (.wake pickDone) k1 k2 rfl k3 rfl
    obtain ⟨m1, m2⟩ := runnable_life_settled hookServerStart rest _ _ (j4 rfl).1
    exact ⟨m1, m2.trans (j4 rfl).2⟩

/-- C10, at concrete lives: the runnable wakes once in vain; then either the context is
cancelled and it returns that error without starting the server, even though the gate is
signalled afterwards, or the gate is signalled and it returns the error of a `Start` that
fails. -/
theorem C10_witness :
    (RunnableState.run (fun _ => some (.errorf "listen: address in use"))
      ⟨make, ⟨7, none⟩, none, ⟨[], []⟩⟩
      [.wake false, .cancel (.errorf "context canceled"), .wake false, .signal,
        .wake false]).result
      = some ⟨some (.errorf "context canceled"), []⟩ ∧
    (RunnableState.run (fun _ => some (.errorf "listen: address in use"))
      ⟨make, ⟨7, none⟩, none, ⟨[], []⟩⟩
      [.wake true, .signal, .wake true, .cancel (.errorf "context canceled")]).result
      = some ⟨some (.errorf "listen: address in use"), [⟨7, none⟩]⟩ :=
  ⟨((C10_runnable_life _ 7 ⟨[], []⟩ (.errorf "context canceled") false [.wake false] []
      [.signal, .wake false] (by decide)).2.1 (by decide)).1,
   ((C10_runnable_life _ 7 ⟨[], []⟩ (.errorf "context canceled") true [.wake true] []
      [.cancel (.errorf "context canceled")] (by decide)).2.2 (by decide)).1⟩

theorem gateRun_polls_open (n : Nat) (ops : List GateOp) :
    gateRun make (List.replicate n .poll ++ ops) =
      ((gateRun make ops).1,
        List.replicate n (.done (some (.errorf "cert not ready"))) ++ (gateRun make ops).2) := by
  induction n with
  | zero => simp
  | succ n ih =>
    simp only [List.replicate_succ, List.cons_append, gateRun]
    have hc : certCheck make = (.done (some (.errorf "cert not ready")), make) := rfl
    rw [hc]
    simp [ih]

theorem gateRun_polls_closed (m : Nat) :
    gateRun (close make) (List.replicate m .poll) =
      (close make, List.replicate m (.done none)) := by
  induction m with
  | zero => rfl
  | succ m ih =>
    simp only [List.replicate_succ, gateRun]
    have hc : certCheck (close make) = (.done none, close make) := rfl
    rw [hc]
    simp [ih]

/-- C3: take any number `n` of evaluations of the "cert" readiness check, then the one
signal of the gate, then any number `m` of evaluations: the first `n` all return the
error "cert not ready", the last `m` all return nil, and the gate ends satisfied. An
evaluation never blocks and leaves the channel exactly as it found it. -/
theorem C3_cert_check_follows_signal (n m : Nat) (c : Chan) :
    gateRun make (List.replicate n .poll ++ .signal :: List.replicate m .poll) =
      (close make,
        List.replicate n (.done (some (.errorf "cert not ready")))
          ++ List.replicate m (.done none)) ∧
    (certCheck c).2 = c ∧ (certCheck c).1 ≠ .blocked := by
  refine ⟨?_, ?_, ?_⟩
  · rw [gateRun_polls_open]
    simp only [gateRun]
    rw [gateRun_polls_closed]
  · unfold certCheck; split <;> rfl
  · unfold certCheck; split <;> simp

/-- C7, refuted at a concrete input: on a fresh manager with provisioning enabled and
`cert.AddToManager` failing, `AddToManager` returns that error and yet the manager now
holds the "cert" readiness check it did not hold before the call. -/
theorem C7_counterexample :
    (AddToManager Env.certFails ⟨true⟩ World.fresh).2 = some (.errorf "no secret") ∧
    (AddToManager Env.certFails ⟨true⟩ World.fresh).1.mgr.readyz = ["cert"] ∧
    World.fresh.mgr.readyz = [] := by
  decide

/-- C7 (amended): `AddToManager` does not undo completed steps. When it returns an error,
no runnable has been added and nothing after the failing step has been applied, while
everything before the failing step stays applied: (1) the "cert" readiness check could
not be added: manager and hook server are as before the call; (2) `cert.AddToManager`
failed: the "cert" check stays registered; (3) the "webhook" readiness check could not
be added: the three admission handlers stay registered and, with `Enable`, so do the
"cert" check and the certificate generator; (4) `mgr.Add` failed: all of that and the
"webhook" check stay. -/
theorem C7_error_keeps_completed_steps (env : Env) (cfg : CertGeneratorConfig)
    (w w' : World) (err : Error) (h : AddToManager env cfg w = (w', some err)) :
    w'.mgr.runnables = w.mgr.runnables ∧
    w'.mgr.healthz = w.mgr.healthz ∧
    w'.hookServer.started = w.hookServer.started ∧
    ((cfg.Enable = true ∧
        (w.mgr.AddReadyzCheck (extErr (env.addReadyzCheck "cert")) "cert").2 = some err ∧
        w'.mgr = w.mgr ∧ w'.hookServer = w.hookServer) ∨
     (cfg.Enable = true ∧ extErr env.certAddToManager = some err ∧
        w'.mgr = { w.mgr with readyz := w.mgr.readyz ++ ["cert"] } ∧
        w'.hookServer = w.hookServer) ∨
     (w'.hookServer.handlers =
          w.hookServer.handlers ++ ["/validate-experiment", "/mutate-experiment", "/mutate-pod"] ∧
        w'.mgr = (if cfg.Enable then
            { w.mgr with readyz := w.mgr.readyz ++ ["cert"], certGenerator := true }
          else w.mgr) ∧
        (w'.mgr.AddReadyzCheck (extErr (env.addReadyzCheck "webhook")) "webhook").2
          = some err) ∨
     (∃ e, extErr env.add = some e ∧
        err = .wrapped "add webhook server to the manager failed: " e ∧
        w'.hookServer.handlers =
          w.hookServer.handlers ++ ["/validate-experiment", "/mutate-experiment", "/mutate-pod"] ∧
        w'.mgr = (if cfg.Enable then
            { w.mgr with readyz := w.mgr.readyz ++ ["cert", "webhook"], certGenerator := true }
          else { w.mgr with readyz := w.mgr.readyz ++ ["webhook"] }))) := by
  obtain ⟨enable⟩ := cfg
  cases enable <;>
    cases h1 : env.addReadyzCheck "cert" <;> cases h2 : env.certAddToManager <;>
    cases h3 : env.addReadyzCheck "webhook" <;> cases h4 : env.add <;>
    by_cases hm : "cert" ∈ w.mgr.readyz <;> by_cases hm2 : "webhook" ∈ w.mgr.readyz <;>
    simp [AddToManager, AddToManager.certs, World.addReadyzCheck, World.register,
      Manager.AddReadyzCheck, Manager.Add, certAddToManager, HookServer.Register, extErr,
      h1, h2, h3, h4, hm, hm2] at h ⊢ <;>
    obtain ⟨hw, he⟩ := h <;> subst hw <;> subst he <;>
    simp [hm, hm2]

/-- C7 (amended), at a concrete input: `cert.AddToManager` fails on a fresh manager. -/
theorem C7_witness :
    AddToManager Env.certFails ⟨true⟩ World.fresh
      = (World.certOnly, some (.errorf "no secret")) ∧
    World.certOnly.mgr.runnables = World.fresh.mgr.runnables :=
  ⟨by decide,
   (C7_error_keeps_completed_steps Env.certFails ⟨true⟩ World.fresh World.certOnly
      (.errorf "no secret") (by decide)).1⟩

/-! ## Theorems: main.go -/

theorem before_nil (P : List Event → Prop) (B : Event → Bool) : Before P B [] := by
  intro pre x post h
  simp at h

theorem before_snoc {P : List Event → Prop} {B : Event → Bool} {tr : List Event} {e : Event}
    (h : Before P B tr) (he : B e = true → P tr) : Before P B (tr ++ [e]) := by
  intro pre x post hsplit hx
  rcases List.eq_nil_or_concat post with hp | ⟨post', y, hp⟩
  · subst hp
    have := List.append_inj' hsplit (by simp)
    obtain ⟨h1, h2⟩ := this
    simp at h2
    subst h1; subst h2
    exact he hx
  · subst hp
    have h' : tr ++ [e] = (pre ++ x :: post') ++ [y] := by simpa using hsplit
    have := List.append_inj' h' (by simp)
    exact h pre x post' this.1 hx

theorem before_append {P : List Event → Prop} {B : Event → Bool} {tr : List Event}
    (es : List Event) (h : Before P B tr) (hes : ∀ x ∈ es, B x = false) :
    Before P B (tr ++ es) := by
  induction es using List.reverseRecOn with
  | nil => simpa using h
  | append_singleton es e ih =>
    rw [← List.append_assoc]
    refine before_snoc (ih fun x hx => hes x (by simp [hx])) ?_
    intro he
    rw [hes e (by simp)] at he
    exact Bool.noConfusion he

theorem before_append_mono {P : List Event → Prop} {B : Event → Bool} {tr : List Event}
    (hmono : ∀ l e, P l → P (l ++ [e])) (es : List Event) (h : Before P B tr) (h0 : P tr) :
    Before P B (tr ++ es) ∧ P (tr ++ es) := by
  induction es using List.reverseRecOn with
  | nil => simpa using ⟨h, h0⟩
  | append_singleton es e ih =>
    rw [← List.append_assoc]
    exact ⟨before_snoc ih.1 fun _ => ih.2, hmono _ _ ih.2⟩

theorem before_append_mem {B : Event → Bool} {tr : List Event} {e0 : Event}
    (es : List Event) (h : Before (fun pre => e0 ∈ pre) B tr) (h0 : e0 ∈ tr) :
    Before (fun pre => e0 ∈ pre) B (tr ++ es) :=
  (before_append_mono (P := fun pre => e0 ∈ pre)
    (fun _ _ hl => List.mem_append_left _ hl) es h h0).1

theorem before_append_infix {B : Event → Bool} {tr l : List Event}
    (es : List Event) (h : Before (fun pre => l <:+: pre) B tr) (h0 : l <:+: tr) :
    Before (fun pre => l <:+: pre) B (tr ++ es) :=
  (before_append_mono (P := fun pre => l <:+: pre)
    (fun _ e hl => by
      obtain ⟨a, b, hab⟩ := hl
      exact ⟨a, b ++ [e], by simp [← hab]⟩) es h h0).1

theorem run_induction (enable : Bool) (I : State → Prop)
    (hstep : ∀ s a s', I s → step enable s a = some s' → I s') :
    ∀ (as : List Action) (s s' : State), I s → run enable s as = some s' → I s' := by
  intro as
  induction as with
  | nil =>
    intro s s' hI h
    simp only [run, Option.some.injEq] at h
    exact h ▸ hI
  | cons a as ih =>
    intro s s' hI h
    simp only [run] at h
    cases hs : step enable s a with
    | none => rw [hs] at h; exact Option.noConfusion h
    | some s1 =>
      rw [hs] at h
      exact ih s1 s' (hstep s a s1 hI hs) h

theorem finalState_eq (enable : Bool) (as : List Action)
    (h : (run enable State.init as).isSome = true) :
    run enable State.init as = some (finalState enable as) := by
  unfold finalState
  cases hr : run enable State.init as with
  | none => rw [hr] at h; exact Bool.noConfusion h
  | some s => rfl

theorem gated_step (s : State) (a : Action) (s' : State) (hI : Gated s)
    (hs : step true s a = some s') : Gated s' := by
  obtain ⟨pm, pw, ch, mgr, ex, tr⟩ := s
  obtain ⟨hb, hm, hw, hc⟩ := hI
  simp only at hb hm hw hc
  cases ex with
  | some c => simp [Katib.step] at hs
  | none =>
    cases a with
    | main ret =>
      cases pm <;> simp [Pc.ofWaiter] at hm <;> cases ret <;>
        simp [Katib.step, Katib.main, setupControllers, guarded, osExit, emit, setPc, extErr,
          Manager.AddReadyzCheck,
          Manager.AddHealthzCheck, certAddToManager] at hs <;>
        (try split_ifs at hs) <;>
        (try simp at hs) <;>
        subst hs <;>
        refine ⟨before_append _ hb (by simp [Event.isSetup]), by simp [Pc.ofWaiter], ?_, ?_⟩
      all_goals first
        | exact fun pc h => ⟨(hw pc h).1, fun hne => List.mem_append_left _ ((hw pc h).2 hne)⟩
        | exact fun c h1 h2 => List.mem_append_left _ (hc c h1 h2)
        | (intro pc h; cases h; simp [Pc.ofWaiter]; done)
        | (intro c h1; cases h1; simp [make])
    | waiter ret =>
      cases pw with
      | none => simp [Katib.step] at hs
      | some pc =>
        obtain ⟨hpc, hsig⟩ := hw pc rfl
        cases pc <;> simp [Pc.ofWaiter] at hpc
        · cases ch with
          | none => simp [Katib.step, Katib.waiter] at hs
          | some c =>
            simp [Katib.step, Katib.waiter, recvReady, emit, setPc] at hs
            obtain ⟨hcl, hs⟩ := hs
            subst hs
            have hsg := hc c rfl hcl
            exact ⟨before_append_mem _ hb hsg, hm,
              fun pc h => by cases h; exact ⟨rfl, fun _ => List.mem_append_left _ hsg⟩,
              fun c' h1 h2 => List.mem_append_left _ (hc c' h1 h2)⟩
        all_goals
          have hsg := hsig (by simp)
          cases ret <;>
            simp [Katib.step, Katib.waiter, setupControllers, guarded, osExit, emit, setPc,
            extErr] at hs <;>
            subst hs <;>
            exact ⟨before_append_mem _ hb hsg, hm,
              fun pc h => by cases h; exact ⟨rfl, fun _ => List.mem_append_left _ hsg⟩,
              fun c' h1 h2 => List.mem_append_left _ (hc c' h1 h2)⟩
    | signal =>
      cases ch with
      | none => simp [Katib.step, Katib.signal] at hs
      | some c =>
        simp [Katib.step, Katib.signal, emit, close] at hs
        obtain ⟨_, hs⟩ := hs
        subst hs
        exact ⟨before_append _ hb (by simp [Event.isSetup]), hm,
          fun pc h => ⟨(hw pc h).1, fun _ => by simp⟩, fun _ _ _ => by simp⟩

theorem gated_init : Gated State.init :=
  ⟨before_nil _ _, rfl, fun _ h => (by cases h), fun _ h => (by cases h)⟩

/-- C1: with `CertGeneratorConfig.Enable` true, in every execution of `main` (every
interleaving of the main flow, the provisioner and the waiter, with every outcome of
every external call), each call of `setupControllers` and each call of
`controller.AddToManager` or `webhookv1beta1.AddToManager` comes after the signal of
the `certsReady` gate; an execution without a signal contains none of them. -/
theorem C1_setup_only_after_signal (as : List Action) (s : State)
    (h : run true State.init as = some s) :
    (∀ pre x post, s.trace = pre ++ x :: post → x.isSetup = true → Event.signal ∈ pre) ∧
    (Event.signal ∉ s.trace → ∀ x ∈ s.trace, x.isSetup = false) := by
  have hI := run_induction true Gated gated_step as State.init s gated_init h
  refine ⟨hI.before, fun hn x hx => ?_⟩
  obtain ⟨pre, post, hsplit⟩ := List.append_of_mem hx
  cases hb : x.isSetup with
  | false => rfl
  | true =>
    have := hI.before pre x post hsplit hb
    exact absurd (hsplit ▸ List.mem_append_left _ this) hn

/-- C1, at a concrete execution: the provisioner signals while `mgr.Start` runs, then
the waiter goes through `setupControllers`. -/
theorem C1_witness :
    run true State.init Demo.enabled = some (finalState true Demo.enabled) ∧
    Event.signal ∈ (finalState true Demo.enabled).trace.take 14 :=
  ⟨finalState_eq _ _ (by decide),
   (C1_setup_only_after_signal Demo.enabled _ (finalState_eq _ _ (by decide))).1
      ((finalState true Demo.enabled).trace.take 14) (.enter .waiter)
      ((finalState true Demo.enabled).trace.drop 15) (by decide) rfl⟩

set_option maxHeartbeats 1000000 in
theorem inline_step (s : State) (a : Action) (s' : State) (hI : Inline s)
    (hs : step false s a = some s') : Inline s' := by
  obtain ⟨pm, pw, ch, mgr, ex, tr⟩ := s
  obtain ⟨hw, hc, hm, hq, hseen, hdone, hb⟩ := hI
  simp only at hw hc hm hq hseen hdone hb
  subst hw; subst hc
  cases ex with
  | some c => simp [Katib.step] at hs
  | none =>
    obtain ⟨t, ht⟩ := hseen rfl
    cases a with
    | waiter ret => simp [Katib.step] at hs
    | signal => simp [Katib.step, Katib.signal] at hs
    | main ret =>
      cases pm <;> simp [Pc.ofMain] at hm <;> cases ret <;>
        simp [Katib.step, Katib.main, setupControllers, guarded, osExit, emit, setPc, extErr,
          Manager.AddReadyzCheck,
          Manager.AddHealthzCheck, certAddToManager] at hs <;>
        (try split_ifs at hs) <;>
        (try simp at hs) <;>
        subst hs <;>
        refine ⟨rfl, rfl, rfl,
          by simp [List.filter_append, hq, Event.byWaiter], ?_, ?_, ?_⟩
      all_goals first
        | (refine before_append _ hb ?_; simp [Event.isServe]; done)
        | exact before_append_infix _ hb (hdone rfl)
        | (intro h; cases h; done)
        | (intro h; simp [Pc.afterSetup] at h; done)
        | exact fun _ => ⟨_, (List.append_nil _).symm⟩
        | exact fun _ => ⟨tr, rfl⟩
        | exact fun _ => (hdone rfl).trans (List.prefix_append _ _).isInfix
        | (subst ht; refine fun _ => ⟨t, [], ?_⟩; simp [setupSeen, setupOnMain])
        | (subst ht; refine fun _ => ⟨t, ?_⟩; simp [setupSeen])

theorem inline_init : Inline State.init :=
  ⟨rfl, rfl, rfl, rfl, fun _ => ⟨[], rfl⟩, fun h => (by cases h), before_nil _ _⟩

/-- C4: with `CertGeneratorConfig.Enable` false, in every execution of `main` no waiter
is spawned and no event belongs to one, and whenever the "healthz" liveness check is
registered or `mgr.Start` is called, `setupControllers` has already run on the main
flow from call to return: entered, `controller.AddToManager` returned nil, then
`webhookv1beta1.AddToManager` returned nil, then it returned. -/
theorem C4_setup_inline_before_serving (as : List Action) (s : State)
    (h : run false State.init as = some s) :
    s.waiter = none ∧
    (∀ x ∈ s.trace, x.byWaiter = false) ∧
    (∀ pre x post, s.trace = pre ++ x :: post → x.isServe = true →
      setupOnMain <:+: pre) := by
  have hI := run_induction false Inline inline_step as State.init s inline_init h
  refine ⟨hI.waiter, fun x hx => ?_, hI.before⟩
  have := hI.quiet
  rw [List.filter_eq_nil_iff] at this
  simpa using this x hx

/-- C4, at a concrete execution: provisioning disabled and every call succeeding. -/
theorem C4_witness :
    run false State.init Demo.disabled = some (finalState false Demo.disabled) ∧
    setupOnMain <:+: (finalState false Demo.disabled).trace.take 10 :=
  ⟨finalState_eq _ _ (by decide),
   (C4_setup_inline_before_serving Demo.disabled _ (finalState_eq _ _ (by decide))).2.2
      ((finalState false Demo.disabled).trace.take 10)
      (.call .main (.AddHealthzCheck "healthz") none)
      ((finalState false Demo.disabled).trace.drop 11) (by decide) rfl⟩

set_option linter.unnecessarySimpa false in
set_option linter.unusedTactic false in
set_option maxHeartbeats 4000000 in
theorem careful_step (enable : Bool) (p : Proc) (a : Action) (p' : Proc)
    (hI : Careful enable p) (hs : Proc.step enable p a = some p') : Careful enable p' := by
  obtain ⟨⟨pm, pw, ch, mgr, ex, tr⟩, mf, wf⟩ := p
  obtain ⟨hm, hmf, hwf, hst, hun, hbo, hq, hal⟩ := hI
  simp only at hm hmf hwf hst hun hbo hq hal
  cases ex with
  | some c => simp [Proc.step] at hs
  | none =>
    cases a with
    | main ret =>
      cases mf with
      | true =>
        simp [Proc.step, osExit] at hs
        subst hs
        exact ⟨hm, by simpa [List.filter_append, Event.onMain] using hmf,
          by simpa [List.filter_append, Event.onWaiter] using hwf,
          fun code h => Or.inr ⟨by simpa using h.symm, Or.inl rfl⟩, hun, hbo, hq, hal⟩
      | false =>
        simp only [Fate, Bool.false_eq_true, if_false] at hmf
        cases enable <;> cases pm <;> simp [Pc.ofMain] at hm <;> cases ret <;>
          simp [Proc.step, Katib.main, setupControllers, extErr, Manager.AddReadyzCheck,
            Manager.AddHealthzCheck, certAddToManager] at hs <;>
          (try split_ifs at hs) <;>
          simp [Proc.stmt, Proc.fail, guarded, osExit, emit, setPc] at hs <;>
          subst hs <;>
          refine ⟨rfl, ?_, ?_, ?_, ?_, ?_, ?_, ?_⟩
        all_goals first
          | exact hal
          | exact hq
          | exact hbo
          | exact fun _ => hq (by decide)
          | exact fun h _ => hbo h (by decide)
          | (intro h; cases h; done)
          | (intro _ _; simp; done)
          | (simp only [Fate, Bool.false_eq_true, if_false]
             rw [List.filter_append, hmf]
             rfl)
          | (simp only [Fate, eq_self_iff_true, if_true]
             refine ⟨?_, ?_, ?_, ?_⟩
             rotate_left 2
             · exact rfl
             · rw [List.filter_append, hmf]
               exact rfl)
          | (intro code h; simp at h; done)
          | (intro code h; simp at h; subst h; exact Or.inl ⟨rfl, rfl, rfl⟩)
          | (simpa [List.filter_append, Event.onWaiter] using hwf)
          | exact fun _ => hun (by decide)
          | (intro h; simp [Pc.behind] at h; done)
          | (intro _ h; simp [Pc.behind] at h; done)
          | (have hp : pw = none := hun (by decide)
             subst hp
             obtain ⟨h1, h2⟩ := hwf
             subst h1
             refine ⟨rfl, ?_⟩
             simp only [Fate, Bool.false_eq_true, if_false]
             rw [List.filter_append, h2]
             rfl)
    | waiter ret =>
      cases pw with
      | none => simp [Proc.step] at hs
      | some pc =>
        cases enable with
        | false => exact absurd (hal rfl).1 (by simp)
        | true =>
          cases wf with
          | true =>
            simp [Proc.step, osExit] at hs
            subst hs
            exact ⟨hm, by simpa [List.filter_append, Event.onMain] using hmf,
              by simpa [List.filter_append, Event.onWaiter] using hwf,
              fun code h => Or.inr ⟨by simpa using h.symm, Or.inr rfl⟩, hun, hbo, hq, hal⟩
          | false =>
            obtain ⟨hpc, hwf⟩ := hwf
            simp only [Fate, Bool.false_eq_true, if_false] at hwf
            cases ch <;> cases pc <;> simp [Pc.ofWaiter] at hpc <;> cases ret <;>
              simp [Proc.step, Katib.waiter, setupControllers, extErr] at hs <;>
              (try split_ifs at hs) <;>
              simp [Proc.stmt, Proc.fail, guarded, osExit, emit, setPc] at hs <;>
              subst hs <;>
              refine ⟨hm, ?_, ?_, ?_, ?_, ?_, ?_, ?_⟩
            all_goals first
              | exact hal
              | exact hq
              | (intro _ _; simp; done)
              | (intro code h; simp at h; done)
              | (simpa [List.filter_append, Event.onMain] using hmf)
              | (refine ⟨rfl, ?_⟩
                 simp only [Fate, Bool.false_eq_true, if_false]
                 rw [List.filter_append, hwf]
                 rfl)
              | (refine ⟨rfl, ?_⟩
                 simp only [Fate, eq_self_iff_true, if_true]
                 refine ⟨?_, ?_, ?_, ?_⟩
                 rotate_left 2
                 · exact rfl
                 · rw [List.filter_append, hwf]
                   exact rfl)
              | (intro h; have hx := hun h; simp at hx; done)
    | signal =>
      cases ch with
      | none => simp [Proc.step, signal] at hs
      | some c =>
        cases enable with
        | false => exact absurd (hal rfl).2 (by simp)
        | true =>
          simp [Proc.step, signal, emit] at hs
          obtain ⟨-, hs⟩ := hs
          subst hs
          exact ⟨hm, by simpa [List.filter_append, Event.onMain] using hmf,
            by simpa [List.filter_append, Event.onWaiter] using hwf,
            fun code h => by simp at h, hun, hbo, hq, fun h => by cases h⟩


theorem careful_init (enable : Bool) : Careful enable Proc.init := by
  refine ⟨?_, rfl, ⟨rfl, rfl⟩, fun _ h => (by cases h), fun _ => rfl, fun _ h => ?_,
    fun _ => rfl, fun _ => ⟨rfl, rfl⟩⟩
  · cases enable <;> rfl
  · exact absurd h (by decide)

theorem proc_run_induction (enable : Bool) (I : Proc → Prop)
    (hstep : ∀ p a p', I p → Proc.step enable p a = some p' → I p') :
    ∀ (as : List Action) (p p' : Proc), I p → Proc.run enable p as = some p' → I p' := by
  intro as
  induction as with
  | nil =>
    intro p p' hI h
    simp only [Proc.run, Option.some.injEq] at h
    exact h ▸ hI
  | cons a as ih =>
    intro p p' hI h
    simp only [Proc.run] at h
    cases hs : Proc.step enable p a with
    | none => rw [hs] at h; exact Option.noConfusion h
    | some p1 =>
      rw [hs] at h
      exact ih p1 p' (hstep p a p1 hI hs) h

theorem finalProc_eq (enable : Bool) (as : List Action)
    (h : (Proc.run enable Proc.init as).isSome = true) :
    Proc.run enable Proc.init as = some (finalProc enable as) := by
  unfold finalProc
  cases hr : Proc.run enable Proc.init as with
  | none => rw [hr] at h; exact Bool.noConfusion h
  | some s => rfl

theorem careful_fails (enable : Bool) (p : Proc) (hI : Careful enable p) (t : Tid)
    (pc : Pc) (c : Call) (msg : String) (hx : p.s.exit = none) (hf : p.failed t = false)
    (hpc : p.pc t = some pc) (hc : callAt pc = some c) :
    Proc.step enable p (Action.of t (some msg)) =
      some (Proc.fail t { p with s := emit [.call t c (some (.errorf msg))] p.s }) := by
  obtain ⟨⟨pm, pw, ch, mgr, ex, tr⟩, mf, wf⟩ := p
  obtain ⟨hm, -, hwf, -, -, -, -, -⟩ := hI
  simp only at hm hwf hx
  subst hx
  cases t with
  | main =>
    simp only [Proc.failed] at hf
    subst hf
    simp only [Proc.pc, Option.some.injEq] at hpc
    subst hpc
    cases enable <;> cases pm <;> simp [Pc.ofMain] at hm <;> simp [callAt] at hc <;>
      subst hc <;>
      simp [Proc.step, Action.of, Katib.main, setupControllers, extErr,
        Manager.AddReadyzCheck, Manager.AddHealthzCheck, certAddToManager, Proc.stmt,
        Proc.fail, guarded, osExit, emit]
  | waiter =>
    simp only [Proc.failed] at hf
    subst hf
    simp only [Proc.pc] at hpc
    subst hpc
    obtain ⟨hw, -⟩ := hwf
    cases pc <;> simp [Pc.ofWaiter] at hw <;> simp [callAt] at hc <;> subst hc <;>
      simp [Proc.step, Action.of, Katib.waiter, setupControllers, extErr, Proc.stmt,
        Proc.fail, guarded, osExit, emit]

theorem careful_exits (enable : Bool) (p : Proc) (hI : Careful enable p) (t : Tid)
    (ret : Option String) (hx : p.s.exit = none) (hf : p.failed t = true) :
    Proc.step enable p (Action.of t ret) = some { p with s := osExit 1 p.s } := by
  obtain ⟨⟨pm, pw, ch, mgr, ex, tr⟩, mf, wf⟩ := p
  obtain ⟨-, -, hwf, -, -, -, -, -⟩ := hI
  simp only at hwf hx
  subst hx
  cases t with
  | main =>
    simp only [Proc.failed] at hf
    subst hf
    simp [Proc.step, Action.of]
  | waiter =>
    simp only [Proc.failed] at hf
    subst hf
    cases pw with
    | none => exact absurd hwf.1 (by decide)
    | some pc => simp [Proc.step, Action.of]

theorem careful_single (enable : Bool) (p : Proc) (hI : Careful enable p)
    (hw : p.s.waiter = none) (hf : p.mainFailed = true) (hx : p.s.exit = none)
    (a : Action) (p' : Proc) (hs : Proc.step enable p a = some p') :
    p' = { p with s := osExit 1 p.s } := by
  obtain ⟨⟨pm, pw, ch, mgr, ex, tr⟩, mf, wf⟩ := p
  obtain ⟨hm, hmf, -, -, -, hbo, hq, hal⟩ := hI
  simp only at hm hmf hbo hq hal hw hf hx
  subst hw hf hx
  cases a with
  | main ret =>
    simp [Proc.step] at hs
    exact hs.symm
  | waiter ret => simp [Proc.step] at hs
  | signal =>
    exfalso
    simp only [Fate, eq_self_iff_true, if_true] at hmf
    obtain ⟨c, e, hc, -⟩ := hmf
    cases ch with
    | none => simp [Proc.step, signal] at hs
    | some ch =>
      cases enable with
      | false => exact absurd (hal rfl).2 (by simp)
      | true =>
        cases pm <;> simp [Pc.ofMain] at hm <;> simp [callAt] at hc <;>
          first
          | (have hg := hq (by decide); simp [Proc.step, signal, hg] at hs)
          | exact hbo rfl (by decide) rfl

theorem careful_clean (enable : Bool) (p : Proc) (hI : Careful enable p)
    (hx : p.s.exit = some 0) :
    p.mainFailed = false ∧ p.s.trace.filter Event.onMain = mainSeq enable := by
  obtain ⟨-, hmf, -, hst, -, -, -, -⟩ := hI
  rcases hst 0 hx with ⟨-, hret, hf⟩ | ⟨h01, -⟩
  · rw [hf, hret] at hmf
    refine ⟨hf, ?_⟩
    simp only [Fate, Bool.false_eq_true, if_false] at hmf
    rw [hmf]
    cases enable <;> rfl
  · exact absurd h01 (by decide)

theorem careful_status (enable : Bool) (p : Proc) (hI : Careful enable p) (code : Nat)
    (hx : p.s.exit = some code) :
    (code = 0 ∨ (code = 1 ∧ ∃ t c e, Event.call t c (some e) ∈ p.s.trace)) ∧
    ∀ a, Proc.step enable p a = none := by
  obtain ⟨⟨pm, pw, ch, mgr, ex, tr⟩, mf, wf⟩ := p
  obtain ⟨-, hmf, hwf, hst, -, -, -, -⟩ := hI
  simp only at hmf hwf hst hx
  subst hx
  refine ⟨?_, fun a => by simp [Proc.step]⟩
  rcases hst code rfl with ⟨h0, -, -⟩ | ⟨h1, hm | hw⟩
  · exact Or.inl h0
  · subst hm
    simp only [Fate, eq_self_iff_true, if_true] at hmf
    obtain ⟨c, e, -, htr⟩ := hmf
    refine Or.inr ⟨h1, .main, c, e, ?_⟩
    have hmem : Event.call .main c (some e) ∈ tr.filter Event.onMain := by
      rw [htr]; simp
    exact (List.mem_filter.1 hmem).1
  · subst hw
    cases pw with
    | none => exact absurd hwf.1 (by decide)
    | some pc =>
      obtain ⟨-, hwf⟩ := hwf
      simp only [Fate, eq_self_iff_true, if_true] at hwf
      obtain ⟨c, e, -, htr⟩ := hwf
      refine Or.inr ⟨h1, .waiter, c, e, ?_⟩
      have hmem : Event.call .waiter c (some e) ∈ tr.filter Event.onWaiter := by
        rw [htr]; simp
      exact (List.mem_filter.1 hmem).1

/-- C5, refuted at a concrete execution at the grain of single statements: provisioning
is enabled and `controller.AddToManager` returns an error in the waiter; before the
waiter runs its `os.Exit(1)` the main flow registers the liveness check, calls
`mgr.Start`, gets nil from it and returns, so that two steps of the startup sequence
follow the failing one and the process ends with status 0. -/
theorem C5_counterexample :
    Proc.run true Proc.init Demo.race = some (finalProc true Demo.race) ∧
    (finalProc true Demo.race).s.exit = some 0 ∧
    (finalProc true Demo.race).waiterFailed = true ∧
    (finalProc true Demo.race).s.trace =
      [.call .main .GetInitConfigData none, .call .main .TrialResourcesToGVKs none,
       .call .main .GetConfig none, .call .main .ManagerNew none,
       .call .main .NewServer none, .call .main (.AddReadyzCheck "webhook") none,
       .makeChan, .call .main (.AddReadyzCheck "cert") none,
       .call .main .CertAddToManager none, .go, .signal, .recv, .enter .waiter,
       .call .waiter .ControllerAddToManager (some (.errorf "no CRD")),
       .call .main (.AddHealthzCheck "healthz") none, .start,
       .call .main .MgrStart none, .exit 0] := by
  decide

/-- C5 (amended): in every execution of `main`, `setupControllers` and the waiter, with
each call, its error test and `os.Exit(1)` taken as statements of their own, and with
provisioning enabled or not:
(1) when the call a goroutine stands at returns an error, whichever of the eleven fallible
calls it is, that goroutine records the failed call and stops there: nothing else
changes, and (2) the only statement it executes from then on is `os.Exit(1)`, which
ends the process with status 1;
(3) the events of each goroutine are those of its statements so far, every call having
returned nil, followed by the one failing call when it has failed, and by nothing after
it;
(4) while no waiter exists (always when provisioning is disabled) nothing at all can
happen after a failing call of the main flow but that `os.Exit(1)`;
(5) when the process has ended with status 0 the main flow has not failed and its events
are the whole startup sequence of `main`, every call returning nil up to and including
`mgr.Start`: with provisioning disabled this includes `setupControllers`, with
provisioning enabled it says nothing about the waiter;
(6) the only exit statuses are 0 and 1, status 1 is reached only after a call has returned
an error, and once the process has ended no statement is executed. -/
theorem C5_fail_fast_per_goroutine (enable : Bool) (as : List Action) (p : Proc)
    (h : Proc.run enable Proc.init as = some p) :
    (∀ t pc c msg, p.s.exit = none → p.failed t = false → p.pc t = some pc →
      callAt pc = some c →
      Proc.step enable p (Action.of t (some msg)) =
        some (Proc.fail t { p with s := emit [.call t c (some (.errorf msg))] p.s })) ∧
    (∀ t ret, p.s.exit = none → p.failed t = true →
      Proc.step enable p (Action.of t ret) = some { p with s := osExit 1 p.s }) ∧
    (Fate .main p.s.main (mainTrace enable p.s.main) p.mainFailed
        (p.s.trace.filter Event.onMain) ∧
      WaiterFate p.s.waiter p.waiterFailed (p.s.trace.filter Event.onWaiter)) ∧
    (p.s.waiter = none → p.mainFailed = true → p.s.exit = none →
      ∀ a p', Proc.step enable p a = some p' → p' = { p with s := osExit 1 p.s }) ∧
    (p.s.exit = some 0 →
      p.mainFailed = false ∧ p.s.trace.filter Event.onMain = mainSeq enable) ∧
    (∀ code, p.s.exit = some code →
      (code = 0 ∨ (code = 1 ∧ ∃ t c e, Event.call t c (some e) ∈ p.s.trace)) ∧
      ∀ a, Proc.step enable p a = none) := by
  have hI := proc_run_induction enable (Careful enable) (careful_step enable) as Proc.init p
    (careful_init enable) h
  exact ⟨fun t pc c msg => careful_fails enable p hI t pc c msg,
    fun t ret => careful_exits enable p hI t ret,
    ⟨hI.mainFate, hI.waiterFate⟩,
    fun hw hf hx a p' => careful_single enable p hI hw hf hx a p',
    careful_clean enable p hI,
    fun code => careful_status enable p hI code⟩

/-- C5 (amended), at concrete executions: with provisioning enabled and the gate
signalled while `mgr.Start` runs, `controller.AddToManager` fails in the waiter, whose
next statement ends the process with status 1; and the configuration loader failing with
"no such file" in the first statement of `main` leaves only that exit. -/
theorem C5_witness :
    Proc.run true Proc.init Demo.controllerFails
      = some (finalProc true Demo.controllerFails) ∧
    (finalProc true Demo.controllerFails).s.exit = none ∧
    (finalProc true Demo.controllerFails).failed .waiter = true ∧
    Proc.step true (finalProc true Demo.controllerFails) (.waiter none) =
      some { finalProc true Demo.controllerFails with
        s := osExit 1 (finalProc true Demo.controllerFails).s } ∧
    Proc.step false Proc.init (.main (some "no such file")) =
      some (Proc.fail .main { Proc.init with
        s := emit [.call .main .GetInitConfigData (some (.errorf "no such file"))]
          Proc.init.s }) :=
  ⟨finalProc_eq _ _ (by decide), by decide, by decide,
   (C5_fail_fast_per_goroutine true Demo.controllerFails _
      (finalProc_eq _ _ (by decide))).2.1 .waiter none (by decide) (by decide),
   (C5_fail_fast_per_goroutine false [] Proc.init rfl).1 .main .getInitConfigData
      .GetInitConfigData "no such file" rfl rfl rfl rfl⟩
set_option maxHeartbeats 1000000 in
theorem certFatal_step (s : State) (a : Action) (s' : State) (hI : CertFatal s)
    (hs : step true s a = some s') : CertFatal s' := by
  obtain ⟨pm, pw, ch, mgr, ex, tr⟩ := s
  obtain ⟨hearly, hfail⟩ := hI
  simp only at hearly hfail
  cases ex with
  | some c => simp [Katib.step] at hs
  | none =>
    have hold : ∀ e, Event.call .main .CertAddToManager (some e) ∉ tr :=
      fun e he => absurd (hfail e he).1 (by simp)
    cases a with
    | main ret =>
      cases pm <;> cases ret <;>
        simp [Katib.step, Katib.main, setupControllers, guarded, osExit, emit, setPc, extErr,
          Manager.AddReadyzCheck,
          Manager.AddHealthzCheck, certAddToManager] at hs <;>
        (try split_ifs at hs) <;>
        (try simp at hs) <;>
        subst hs <;>
        refine ⟨?_, ?_⟩
      all_goals first
        | (intro h; simp [Pc.upToCert] at h; done)
        | (intro e he
           rw [List.mem_append] at he
           rcases he with he | he
           · exact absurd he (hold e)
           · simp at he <;> simp)
        | (obtain ⟨hw, hg, hc, hf⟩ := hearly rfl
           intro _
           subst hw
           simp_all [chanAt, List.filter_append, Event.afterCert])
    | waiter ret =>
      cases pw with
      | none => simp [Katib.step] at hs
      | some pc =>
        have hlate : pm.upToCert = true → False :=
          fun h => absurd (hearly h).1 (by simp)
        cases pc <;> cases ret <;>
          simp [Katib.step, Katib.waiter, setupControllers, guarded, osExit, emit, setPc,
            extErr] at hs <;>
          (try split at hs) <;>
          (try simp at hs) <;>
          (first | subst hs | (obtain ⟨-, rfl⟩ := hs)) <;>
          refine ⟨fun h => absurd h (fun h' => hlate h'), ?_⟩
        all_goals
          intro e he
          rw [List.mem_append] at he
          rcases he with he | he
          · exact absurd he (hold e)
          · simp at he
    | signal =>
      cases ch with
      | none => simp [Katib.step, Katib.signal] at hs
      | some c =>
        simp [Katib.step, Katib.signal, emit, close] at hs
        obtain ⟨⟨hg, -⟩, hs⟩ := hs
        subst hs
        refine ⟨fun h => ?_, fun e he => ?_⟩
        · have := (hearly h).2.1
          rw [hg] at this
          exact Bool.noConfusion this
        · rw [List.mem_append] at he
          rcases he with he | he
          · exact absurd he (hold e)
          · simp at he

theorem afterCert_of_isSetup (x : Event) (h : x.isSetup = true) : x.afterCert = true := by
  cases x with
  | call t c r => cases t <;> cases c <;> first | rfl | (simp [Event.isSetup] at h)
  | enter t => rfl
  | _ => simp [Event.isSetup] at h

theorem certFatal_init : CertFatal State.init :=
  ⟨fun _ => ⟨rfl, rfl, rfl, rfl⟩, fun _ h => (by cases h)⟩

/-- C6, refuted at a concrete execution: provisioning is enabled and `cert.AddToManager`
returns an error; the process ends with status 1 right there, and the trace shows that
neither the waiter nor the liveness registration nor `mgr.Start` was reached. -/
theorem C6_counterexample :
    run true State.init Demo.certFails = some (finalState true Demo.certFails) ∧
    (finalState true Demo.certFails).exit = some 1 ∧
    (finalState true Demo.certFails).trace =
      [.call .main .GetInitConfigData none, .call .main .TrialResourcesToGVKs none,
       .call .main .GetConfig none, .call .main .ManagerNew none,
       .call .main .NewServer none, .call .main (.AddReadyzCheck "webhook") none,
       .makeChan, .call .main (.AddReadyzCheck "cert") none,
       .call .main .CertAddToManager (some (.errorf "no secret")), .exit 1] := by
  decide

/-- C6 (amended): with provisioning enabled, when `cert.AddToManager` returns an error
the gate is still pending and the "cert" readiness check evaluated on it reports "cert
not ready", but the process ends with status 1 at that statement: no waiter has been
spawned, `setupControllers` is not called, the gate is not signalled and `mgr.Start` is
never called. -/
theorem C6_cert_error_is_fatal (as : List Action) (s : State) (e : Error)
    (h : run true State.init as = some s)
    (hf : Event.call .main .CertAddToManager (some e) ∈ s.trace) :
    s.exit = some 1 ∧
    s.certsReady = some make ∧
    (certCheck make).1 = .done (some (.errorf "cert not ready")) ∧
    s.waiter = none ∧
    Event.go ∉ s.trace ∧ Event.signal ∉ s.trace ∧ Event.start ∉ s.trace ∧
    (∀ x ∈ s.trace, x.isSetup = false) := by
  have hI := run_induction true CertFatal certFatal_step as State.init s certFatal_init h
  obtain ⟨hexit, hpc⟩ := hI.failed e hf
  obtain ⟨hw, -, hc, hq⟩ := hI.early (by rw [hpc]; rfl)
  rw [hpc] at hc
  rw [List.filter_eq_nil_iff] at hq
  refine ⟨hexit, hc, rfl, hw, fun hx => ?_, fun hx => ?_, fun hx => ?_, fun x hx => ?_⟩
  · exact hq _ hx rfl
  · exact hq _ hx rfl
  · exact hq _ hx rfl
  · cases hb : x.isSetup with
    | false => rfl
    | true => exact absurd (afterCert_of_isSetup x hb) (hq x hx)

/-- C6 (amended), at a concrete execution: `cert.AddToManager` fails with "no secret". -/
theorem C6_witness :
    run true State.init Demo.certFails = some (finalState true Demo.certFails) ∧
    (finalState true Demo.certFails).certsReady = some make ∧
    Event.start ∉ (finalState true Demo.certFails).trace :=
  ⟨finalState_eq _ _ (by decide),
   (C6_cert_error_is_fatal Demo.certFails _ (.errorf "no secret")
      (finalState_eq _ _ (by decide)) (by decide)).2.1,
   (C6_cert_error_is_fatal Demo.certFails _ (.errorf "no secret")
      (finalState_eq _ _ (by decide)) (by decide)).2.2.2.2.2.2.1⟩

set_option maxHeartbeats 2000000 in
theorem probes_step (enable : Bool) (s : State) (a : Action) (s' : State)
    (hI : Probes enable s) (hs : step enable s a = some s') : Probes enable s' := by
  obtain ⟨pm, pw, ch, ⟨rz, hz, cg, rn⟩, ex, tr⟩ := s
  obtain ⟨hw, hm, hrz, hhz, hp, hcol, hst⟩ := hI
  simp only at hw hm hrz hhz hp hcol hst
  subst hrz; subst hhz
  cases ex with
  | some c => simp [Katib.step] at hs
  | none =>
    have hp' : tr.filter Event.isProbe = probesAt enable pm := by
      rcases hp with hp | hp
      · exact hp
      · exact absurd hp.1 (by simp)
    cases a with
    | main ret =>
      cases enable <;> cases pm <;> simp [Pc.ofMain] at hm <;> cases ret <;>
        simp [Katib.step, Katib.main, setupControllers, guarded, osExit, emit, setPc, extErr,
          Manager.AddReadyzCheck,
          Manager.AddHealthzCheck, certAddToManager, readyzAt, healthzAt] at hs <;>
        subst hs <;>
        refine ⟨?_, rfl, rfl, rfl, ?_, ?_, ?_⟩
      all_goals first
        | exact hw
        | (intro pc h; cases h; rfl)
        | (refine Or.inl ?_
           simp [List.filter_append, hp', Event.isProbe, probesAt, readyzAt, healthzAt]
           done)
        | exact Or.inr ⟨rfl, rfl⟩
        | (simp [List.filter_append, hcol, Event.isCollision]; done)
        | (intro h
           simp at h
           first
             | exact Or.inl rfl
             | exact Or.inr rfl
             | (have hx := hst h; simp at hx))
    | waiter ret =>
      cases pw with
      | none => simp [Katib.step] at hs
      | some pc =>
        have hpc := hw pc rfl
        cases pc <;> simp [Pc.ofWaiter] at hpc <;> cases ret <;>
          simp [Katib.step, Katib.waiter, setupControllers, guarded, osExit, emit, setPc,
            extErr] at hs <;>
          (try split at hs) <;>
          (try simp at hs) <;>
          (first | subst hs | (obtain ⟨-, rfl⟩ := hs)) <;>
          refine ⟨fun pc h => by cases h; rfl, hm, rfl, rfl,
            Or.inl (by simp [List.filter_append, hp', Event.isProbe]),
            by simp [List.filter_append, hcol, Event.isCollision],
            fun h => hst (by simpa using h)⟩
    | signal =>
      cases ch with
      | none => simp [Katib.step, Katib.signal] at hs
      | some c =>
        simp [Katib.step, Katib.signal, emit, close] at hs
        obtain ⟨-, hs⟩ := hs
        subst hs
        exact ⟨hw, hm, rfl, rfl, Or.inl (by simp [List.filter_append, hp', Event.isProbe]),
          by simp [List.filter_append, hcol, Event.isCollision],
          fun h => hst (by simpa using h)⟩

theorem probes_init (enable : Bool) : Probes enable State.init :=
  ⟨fun _ h => (by cases h), rfl, rfl, rfl, Or.inl rfl, rfl, fun h => (by cases h)⟩

/-- C8: in every execution of `main` that has reached the call of `mgr.Start`, the
liveness checks registered by `main` are exactly "healthz", the readiness checks are
"webhook" when `Enable` is false and "webhook" and "cert" when it is true, each of these
was registered by exactly one call, made on the main flow and returning nil, and no call
of any execution was refused for a name collision. -/
theorem C8_probes_at_start (enable : Bool) (as : List Action) (s : State)
    (h : run enable State.init as = some s) (hs : Event.start ∈ s.trace) :
    s.mgr.healthz = ["healthz"] ∧
    s.mgr.readyz = (if enable then ["webhook", "cert"] else ["webhook"]) ∧
    s.trace.filter Event.isProbe =
      (if enable then
        [.call .main (.AddReadyzCheck "webhook") none,
         .call .main (.AddReadyzCheck "cert") none,
         .call .main (.AddHealthzCheck "healthz") none]
      else
        [.call .main (.AddReadyzCheck "webhook") none,
         .call .main (.AddHealthzCheck "healthz") none]) ∧
    s.trace.filter Event.isCollision = [] := by
  have hI := run_induction enable (Probes enable) (probes_step enable) as State.init s
    (probes_init enable) h
  have hrz := hI.readyz
  have hhz := hI.healthz
  have hp := hI.probes
  rcases hI.started hs with hpc | hpc <;> rw [hpc] at hrz hhz hp <;>
    (rcases hp with hp | hp) <;> cases enable <;>
    first
      | exact ⟨hhz, hrz, hp, hI.collisions⟩
      | exact absurd hp.2 (by decide)

/-- C8, at a concrete execution: provisioning enabled, up to the return of `main`. -/
theorem C8_witness :
    run true State.init Demo.enabled = some (finalState true Demo.enabled) ∧
    (finalState true Demo.enabled).mgr.readyz = ["webhook", "cert"] :=
  ⟨finalState_eq _ _ (by decide),
   (C8_probes_at_start true Demo.enabled _ (finalState_eq _ _ (by decide))
      (by decide)).2.1⟩

set_option maxHeartbeats 2000000 in
theorem configFirst_step (enable : Bool) (s : State) (a : Action) (s' : State)
    (hI : ConfigFirst s) (hs : step enable s a = some s') : ConfigFirst s' := by
  obtain ⟨pm, pw, ch, mgr, ex, tr⟩ := s
  obtain ⟨hfresh, hfail⟩ := hI
  simp only at hfresh hfail
  cases ex with
  | some c => simp [Katib.step] at hs
  | none =>
    have hold : ∀ e, Event.call .main .GetInitConfigData (some e) ∉ tr :=
      fun e he => absurd (hfail e he).2.1 (by simp)
    cases a with
    | main ret =>
      cases enable <;> cases pm <;> cases ret <;>
        simp [Katib.step, Katib.main, setupControllers, guarded, osExit, emit, setPc, extErr,
          Manager.AddReadyzCheck,
          Manager.AddHealthzCheck, certAddToManager] at hs <;>
        (try split_ifs at hs) <;>
        (try simp at hs) <;>
        subst hs <;>
        refine ⟨?_, ?_⟩
      all_goals first
        | (intro h; cases h; done)
        | (intro e he
           rw [List.mem_append] at he
           rcases he with he | he
           · exact absurd he (hold e)
           · simp at he <;>
               (subst he
                have := (hfresh rfl).2.2.2 rfl
                subst this
                simp))
        | exact fun _ => ⟨(hfresh rfl).1, (hfresh rfl).2.1, (hfresh rfl).2.2.1,
            fun h => Option.noConfusion h⟩
    | waiter ret =>
      cases pw with
      | none => simp [Katib.step] at hs
      | some pc =>
        have hlate : pm ≠ .getInitConfigData :=
          fun h => absurd (hfresh h).2.1 (by simp)
        cases pc <;> cases ret <;>
          simp [Katib.step, Katib.waiter, setupControllers, guarded, osExit, emit, setPc,
            extErr] at hs <;>
          (try split at hs) <;>
          (try simp at hs) <;>
          (first | subst hs | (obtain ⟨-, rfl⟩ := hs)) <;>
          refine ⟨fun h => absurd h hlate, ?_⟩
        all_goals
          intro e he
          rw [List.mem_append] at he
          rcases he with he | he
          · exact absurd he (hold e)
          · simp at he
    | signal =>
      cases ch with
      | none => simp [Katib.step, Katib.signal] at hs
      | some c =>
        simp [Katib.step, Katib.signal, emit, close] at hs
        obtain ⟨-, hs⟩ := hs
        subst hs
        refine ⟨fun h => absurd (hfresh h).2.2.1 (by simp), fun e he => ?_⟩
        rw [List.mem_append] at he
        rcases he with he | he
        · exact absurd he (hold e)
        · simp at he

theorem configFirst_init : ConfigFirst State.init :=
  ⟨fun _ => ⟨rfl, rfl, rfl, fun _ => rfl⟩, fun _ h => (by cases h)⟩

/-- C9: in every execution of `main` in which `katibconfig.GetInitConfigData` returns an
error, the process ends with status 1 and that call followed by the exit is all that
ever happens: `manager.New`, `webhook.NewServer`, `AddReadyzCheck`, `AddHealthzCheck`,
`cert.AddToManager`, `setupControllers` and `mgr.Start` are not called, no probe is
registered, no channel is made and no waiter is spawned. -/
theorem C9_config_error_aborts (enable : Bool) (as : List Action) (s : State) (e : Error)
    (h : run enable State.init as = some s)
    (hf : Event.call .main .GetInitConfigData (some e) ∈ s.trace) :
    s.exit = some 1 ∧
    s.trace = [.call .main .GetInitConfigData (some e), .exit 1] ∧
    s.mgr = Manager.new ∧ s.waiter = none ∧ s.certsReady = none := by
  have hI := run_induction enable ConfigFirst (configFirst_step enable) as State.init s
    configFirst_init h
  obtain ⟨htr, hexit, hpc⟩ := hI.failed e hf
  obtain ⟨hm, hw, hc, -⟩ := hI.fresh hpc
  exact ⟨hexit, htr, hm, hw, hc⟩

/-- C9, at a concrete execution: the configuration file cannot be read. -/
theorem C9_witness :
    run true State.init Demo.configFails = some (finalState true Demo.configFails) ∧
    (finalState true Demo.configFails).trace =
      [.call .main .GetInitConfigData (some (.errorf "no such file")), .exit 1] :=
  ⟨finalState_eq _ _ (by decide),
   (C9_config_error_aborts true Demo.configFails _ (.errorf "no such file")
      (finalState_eq _ _ (by decide)) (by decide)).2.1⟩

end Katib
